import Mathlib

/-!
Verification of the wikipedizer_9000 content-aggregation pipeline.

This file gives a shallow embedding, in Lean, of the core of the repository:

* `src/astro_scraper.py` — text cleaning (`BaseSource.clean_text`), the
  Wikipedia article parser (`WikipediaSource.get_article`), the cache layer
  (`AstronomyScraper._get_cache_path` / `_load_from_cache` / `_save_to_cache`),
  and artifact generation (`AstronomyScraper.generate_text_file` /
  `save_topic`).
* `src/app.py` — the progress model (`ProgressTracker`), the web scraping
  worker (`WebScraper.fetch_topic` / `scrape_category`, `run_scrape_job`),
  and the HTTP endpoints `start_scrape` and `cleanup_job`.

Pure Python functions become Lean functions; the stateful worker becomes
explicit state passing over a `RunState` record whose `events` field is the
job event stream (each `ProgressTracker.update` appends one snapshot).
Network access and the DOM parser are external collaborators: they enter the
model as oracle parameters (an adapter oracle giving each `get_article`
outcome, and a pre-parsed list of block elements for the Wikipedia parser).
Strings are treated as their character lists; all inputs of interest are
ASCII, so Python's Unicode-aware character classes coincide with the ASCII
predicates used here.
-/

namespace Wikipedizer

/-- Characters matched by the Python regex whitespace class on ASCII text
(space, tab, newline, carriage return, vertical tab, form feed). -/
def isPySpace (c : Char) : Bool :=
  c = ' ' || c = '\t' || c = '\n' || c = '\r' || c = '\x0b' || c = '\x0c'

/-- Left-to-right scan implementing `re.sub(r'\[\d+\]', '', text)` from
`BaseSource.clean_text` (src/astro_scraper.py line 270).  The first argument
is the scanner state: `none` when not inside a candidate citation marker,
`some ds` when an opening bracket followed by the digits `ds` (reversed) has
been read but not yet closed. -/
def removeCitationsAux : Option (List Char) → List Char → List Char
  | none, [] => []
  | none, c :: r =>
    if c = '[' then removeCitationsAux (some []) r
    else c :: removeCitationsAux none r
  | some ds, [] => '[' :: ds.reverse
  | some ds, c :: r =>
    if c.isDigit then removeCitationsAux (some (c :: ds)) r
    else if c = ']' then
      if ds.isEmpty then '[' :: ']' :: removeCitationsAux none r
      else removeCitationsAux none r
    else if c = '[' then ('[' :: ds.reverse) ++ removeCitationsAux (some []) r
    else ('[' :: ds.reverse) ++ c :: removeCitationsAux none r

/-- Scan implementing `re.sub(r'\s+', ' ', text)` from `BaseSource.clean_text`
(src/astro_scraper.py line 272): every maximal run of whitespace characters
becomes a single space.  The Boolean records whether the previous character
belonged to a run whose replacement space was already emitted. -/
def collapseWsAux : Bool → List Char → List Char
  | _, [] => []
  | inRun, c :: r =>
    if isPySpace c then
      if inRun then collapseWsAux true r
      else ' ' :: collapseWsAux true r
    else c :: collapseWsAux false r

/-- Replacement for one maximal run of `n` newline characters under
`re.sub(r'\n{3,}', '\n\n', text)`: runs of three or more become two. -/
def newlineRun (n : Nat) : List Char :=
  List.replicate (if 3 ≤ n then 2 else n) '\n'

/-- Scan implementing `re.sub(r'\n{3,}', '\n\n', text)` from
`BaseSource.clean_text` (src/astro_scraper.py line 274).  The counter is the
length of the pending run of newline characters. -/
def collapseNlAux : Nat → List Char → List Char
  | n, [] => newlineRun n
  | n, c :: r =>
    if c = '\n' then collapseNlAux (n + 1) r
    else newlineRun n ++ c :: collapseNlAux 0 r

/-- Python `str.strip()`: drop leading and trailing whitespace. -/
def pyStrip (cs : List Char) : List Char :=
  ((cs.dropWhile isPySpace).reverse.dropWhile isPySpace).reverse

/-- `BaseSource.clean_text` (src/astro_scraper.py lines 267–275): remove
citation markers, collapse whitespace runs, collapse newline runs, strip. -/
def cleanText (s : String) : String :=
  String.mk (pyStrip (collapseNlAux 0 (collapseWsAux false
    (removeCitationsAux none s.data))))

example : cleanText "Hello  [1] world" = "Hello world" := by decide
example : cleanText "a\n\n\nb" = "a b" := by decide
example : cleanText "  x [12][34] y  " = "x y" := by decide
example : cleanText "[[1]]" = "[]" := by decide

theorem collapseWsAux_newline_not_mem (cs : List Char) :
    ∀ b, '\n' ∉ collapseWsAux b cs := by
  induction cs with
  | nil => intro b; simp [collapseWsAux]
  | cons c r ih =>
    intro b
    by_cases hc : isPySpace c = true
    · cases b <;> simp [collapseWsAux, hc] <;>
        exact fun h => (ih true) (by simpa using h)
    · have hcn : ¬ c = '\n' := by
        intro h; subst h; simp [isPySpace] at hc
      simp [collapseWsAux, hc]
      exact ⟨fun h => hcn h.symm, ih false⟩

theorem collapseNlAux_eq_self (cs : List Char) (h : '\n' ∉ cs) :
    collapseNlAux 0 cs = cs := by
  induction cs with
  | nil => simp [collapseNlAux, newlineRun]
  | cons c r ih =>
    have hc : ¬ c = '\n' := by intro hh; exact h (by simp [hh])
    have hr : '\n' ∉ r := by intro hh; exact h (by simp [hh])
    simp [collapseNlAux, hc, newlineRun, ih hr]

theorem mem_of_mem_pyStrip {c : Char} {cs : List Char} (h : c ∈ pyStrip cs) :
    c ∈ cs := by
  unfold pyStrip at h
  rw [List.mem_reverse] at h
  have h1 := (List.dropWhile_sublist (l := (cs.dropWhile isPySpace).reverse)
    (p := isPySpace)).mem h
  rw [List.mem_reverse] at h1
  exact (List.dropWhile_sublist (l := cs) (p := isPySpace)).mem h1

/-- C7 counterexample.  On the input `"a\n\n\nb"`, which contains a run of
three newlines, `clean_text` returns `"a b"`, not `"a\n\nb"`: the output
contains no newline at all, contradicting the claim that a run of 3+ newlines
is collapsed to exactly 2 and may survive as a double newline in the output. -/
theorem cleanText_newline_counterexample :
    cleanText "a\n\n\nb" = "a b" ∧ cleanText "a\n\n\nb" ≠ "a\n\nb" ∧
      '\n' ∉ (cleanText "a\n\n\nb").data := by
  refine ⟨by decide, by decide, by decide⟩

/-- C7 (amended).  `clean_text` removes `[<digits>]` citation markers and
collapses every run of whitespace — newlines included — to a single space, so
its output never contains a newline; the subsequent rule collapsing runs of
3+ newlines to 2 operates on a newline-free string and is the identity. -/
theorem cleanText_amended (s : String) :
    '\n' ∉ (cleanText s).data ∧
      cleanText s =
        String.mk (pyStrip (collapseWsAux false (removeCitationsAux none s.data))) := by
  have hnw : '\n' ∉ collapseWsAux false (removeCitationsAux none s.data) :=
    collapseWsAux_newline_not_mem _ false
  have hid := collapseNlAux_eq_self _ hnw
  constructor
  · intro hmem
    unfold cleanText at hmem
    rw [hid] at hmem
    exact hnw (mem_of_mem_pyStrip hmem)
  · unfold cleanText
    rw [hid]

/-- Python `str.strip()` on a `String`. -/
def pyStripStr (s : String) : String :=
  String.mk (pyStrip s.data)

/-- Python `str.lower()` restricted to ASCII text. -/
def pyLower (s : String) : String :=
  String.mk (s.data.map Char.toLower)

/-- One section of a normalized document: the dict
`\x7b"heading": ..., "content": [...]\x7d` built by the source adapters.
`heading` is `none` exactly when the Python value is `None`. -/
structure DocSection where
  heading : Option String
  content : List String
deriving DecidableEq

/-- A normalized document as returned by the adapters' `get_article`
(a dict with keys `title`, `source`, `url`, `sections`, `fetched_at`). -/
structure Document where
  title : String
  source : String
  url : String
  sections : List DocSection
  fetchedAt : String
deriving DecidableEq

/-- A block-level element of a Wikipedia page, as delivered by the DOM
parser to the loop in `WikipediaSource.get_article`
(src/astro_scraper.py line 308): one of `p`, `h2`/`h3`/`h4` (the three
heading levels are treated identically by the loop body), `ul`/`ol`
(likewise identical), or `table`.  The `skip` flag records whether the
element sits inside a navigation/infobox/metadata container, i.e. whether
the `find_parent` test on line 310 fires.  Text payloads are the
`get_text()` results after MathML replacement, which belongs to the
external DOM/math collaborators. -/
inductive WikiElem
  | para (skip : Bool) (text : String)
  | heading (skip : Bool) (text : String)
  | bullets (skip : Bool) (items : List String)
  | table (skip : Bool)
deriving DecidableEq

/-- Heading names whose sections are discarded
(src/astro_scraper.py line 322). -/
def excludedHeadings : List String :=
  ["see also", "references", "external links", "notes", "further reading"]

/-- `heading_text.lower() in [...]` from src/astro_scraper.py line 322. -/
def isExcludedHeading (h : String) : Bool :=
  excludedHeadings.contains (pyLower h)

/-- Python `text.replace('[edit]', '')`: remove every occurrence of the
edit-link artifact, scanning left to right. -/
def stripEditLinks : List Char → List Char
  | '[' :: 'e' :: 'd' :: 'i' :: 't' :: ']' :: r => stripEditLinks r
  | c :: r => c :: stripEditLinks r
  | [] => []

/-- `elem.get_text().replace('[edit]', '').strip()` from
src/astro_scraper.py line 319. -/
def headingText (t : String) : String :=
  pyStripStr (String.mk (stripEditLinks t.data))

/-- The loop state of `WikipediaSource.get_article`: the completed sections
and the section currently being filled. -/
structure ParseState where
  sections : List DocSection
  current : DocSection
deriving DecidableEq

/-- `if current_section["content"]: sections.append(current_section)` from
src/astro_scraper.py lines 315–316 (an empty list is falsy in Python). -/
def pushIfContent (st : ParseState) : List DocSection :=
  if st.current.content = [] then st.sections else st.sections ++ [st.current]

/-- The heading branch of the element loop (src/astro_scraper.py
lines 313–326): push the current section if it has content, then open a
discarding section for an excluded heading or a fresh named section
otherwise. -/
def headingStep (st : ParseState) (t : String) : ParseState :=
  let ht := headingText t
  if isExcludedHeading ht then ⟨pushIfContent st, ⟨none, []⟩⟩
  else ⟨pushIfContent st, ⟨some ht, []⟩⟩

/-- The paragraph branch of the element loop (src/astro_scraper.py
lines 328–339), reached only when the current heading is not `None`: strip
the paragraph text and, when non-empty, append its cleaned form. -/
def paraStep (st : ParseState) (h : String) (t : String) : ParseState :=
  if pyStripStr t = "" then st
  else ⟨st.sections, ⟨some h, st.current.content ++ [cleanText (pyStripStr t)]⟩⟩

/-- The bullet items retained from a `ul`/`ol` element
(src/astro_scraper.py lines 342–346). -/
def bulletLines (items : List String) : List String :=
  items.filterMap (fun it =>
    if pyStripStr it = "" then none else some ("  • " ++ cleanText (pyStripStr it)))

/-- The list branch of the element loop (src/astro_scraper.py
lines 341–348), reached only when the current heading is not `None`. -/
def bulletsStep (st : ParseState) (h : String) (items : List String) : ParseState :=
  if bulletLines items = [] then st
  else ⟨st.sections, ⟨some h, st.current.content ++ [String.intercalate "\n" (bulletLines items)]⟩⟩

/-- One iteration of the element loop of `WikipediaSource.get_article`
(src/astro_scraper.py lines 308–348).  A `true` skip flag is the
`find_parent` `continue` on lines 310–311. -/
def wikiStep (st : ParseState) : WikiElem → ParseState
  | .heading true _ => st
  | .heading false t => headingStep st t
  | .para true _ => st
  | .para false t =>
    match st.current.heading with
    | none => st
    | some h => paraStep st h t
  | .bullets true _ => st
  | .bullets false items =>
    match st.current.heading with
    | none => st
    | some h => bulletsStep st h items
  | .table _ => st

/-- The final-section push after the loop
(src/astro_scraper.py lines 351–352): kept only when it has content and a
truthy (non-`None`, non-empty) heading. -/
def wikiFinalize (st : ParseState) : List DocSection :=
  match st.current.heading with
  | some h => if st.current.content ≠ [] ∧ h ≠ "" then st.sections ++ [st.current]
              else st.sections
  | none => st.sections

/-- The sections assembled by `WikipediaSource.get_article` from the page's
block elements, starting from the implicit "Overview" section. -/
def wikiSections (elems : List WikiElem) : List DocSection :=
  wikiFinalize (elems.foldl wikiStep ⟨[], ⟨some "Overview", []⟩⟩)

example :
    wikiSections [.para false "Intro text.", .heading false "References",
      .para false "Ref stuff.", .heading false "History [edit]",
      .para false "Hist text."] =
    [⟨some "Overview", ["Intro text."]⟩, ⟨some "History", ["Hist text."]⟩] := by
  decide

/-- An element that opens a new section: a heading not skipped by the
navigation/infobox parent filter. -/
def isRealHeading : WikiElem → Bool
  | .heading false _ => true
  | _ => false

theorem wikiStep_discard (st : ParseState) (e : WikiElem)
    (hcur : st.current.heading = none) (he : isRealHeading e = false) :
    wikiStep st e = st := by
  cases e with
  | para skip t =>
    cases skip with
    | true => rfl
    | false => show (match st.current.heading with | none => st | some h => paraStep st h t) = st
               rw [hcur]
  | heading skip t =>
    cases skip with
    | false => simp [isRealHeading] at he
    | true => rfl
  | bullets skip items =>
    cases skip with
    | true => rfl
    | false => show (match st.current.heading with | none => st | some h => bulletsStep st h items) = st
               rw [hcur]
  | table skip => rfl

theorem foldl_discard (body : List WikiElem) (st : ParseState)
    (hcur : st.current.heading = none)
    (hbody : ∀ e ∈ body, isRealHeading e = false) :
    body.foldl wikiStep st = st := by
  induction body with
  | nil => rfl
  | cons e r ih =>
    rw [List.foldl_cons, wikiStep_discard st e hcur (hbody e (by simp))]
    exact ih (fun x hx => hbody x (by simp [hx]))

theorem wikiStep_excluded (st : ParseState) (hx : String)
    (hexcl : isExcludedHeading (headingText hx) = true) :
    wikiStep st (.heading false hx) = ⟨pushIfContent st, ⟨none, []⟩⟩ := by
  show headingStep st hx = _
  unfold headingStep
  rw [if_pos hexcl]

/-- A section that the parser may legitimately emit: it carries a heading,
and that heading is not in the excluded list. -/
def GoodSec (s : DocSection) : Prop :=
  ∃ h, s.heading = some h ∧ isExcludedHeading h = false

/-- Invariant of the parsing loop: all completed sections are good, a
discarding current section (heading `None`) never accumulates content, and a
current heading is never an excluded one. -/
def GoodState (st : ParseState) : Prop :=
  (∀ s ∈ st.sections, GoodSec s) ∧
  (st.current.heading = none → st.current.content = []) ∧
  (∀ h, st.current.heading = some h → isExcludedHeading h = false)

theorem pushIfContent_good (st : ParseState) (hg : GoodState st) :
    ∀ s ∈ pushIfContent st, GoodSec s := by
  obtain ⟨hsecs, hnone, hsome⟩ := hg
  intro s hs
  unfold pushIfContent at hs
  by_cases hc : st.current.content = []
  · rw [if_pos hc] at hs
    exact hsecs s hs
  · rw [if_neg hc] at hs
    rcases List.mem_append.mp hs with hs | hs
    · exact hsecs s hs
    · rw [List.mem_singleton.mp hs]
      cases hcur : st.current.heading with
      | none => exact absurd (hnone hcur) hc
      | some h => exact ⟨h, hcur, hsome h hcur⟩

theorem wikiStep_good (st : ParseState) (e : WikiElem) (hg : GoodState st) :
    GoodState (wikiStep st e) := by
  have hpush := pushIfContent_good st hg
  obtain ⟨hsecs, hnone, hsome⟩ := hg
  cases e with
  | para skip t =>
    cases skip with
    | true => exact ⟨hsecs, hnone, hsome⟩
    | false =>
      show GoodState (match st.current.heading with
        | none => st | some h => paraStep st h t)
      cases hcur : st.current.heading with
      | none => exact ⟨hsecs, hnone, hsome⟩
      | some h =>
        show GoodState (paraStep st h t)
        unfold paraStep
        by_cases ht : pyStripStr t = ""
        · rw [if_pos ht]; exact ⟨hsecs, hnone, hsome⟩
        · rw [if_neg ht]
          refine ⟨hsecs, fun hh => Option.noConfusion hh, ?_⟩
          intro h2 hh2
          exact Option.some.inj hh2 ▸ hsome h hcur
  | heading skip t =>
    cases skip with
    | true => exact ⟨hsecs, hnone, hsome⟩
    | false =>
      show GoodState (headingStep st t)
      unfold headingStep
      by_cases hexcl : isExcludedHeading (headingText t) = true
      · rw [if_pos hexcl]
        exact ⟨hpush, fun _ => rfl, fun h2 hh2 => Option.noConfusion hh2⟩
      · rw [if_neg hexcl]
        refine ⟨hpush, fun hh => Option.noConfusion hh, ?_⟩
        intro h2 hh2
        rw [← Option.some.inj hh2]
        exact Bool.not_eq_true _ ▸ hexcl
  | bullets skip items =>
    cases skip with
    | true => exact ⟨hsecs, hnone, hsome⟩
    | false =>
      show GoodState (match st.current.heading with
        | none => st | some h => bulletsStep st h items)
      cases hcur : st.current.heading with
      | none => exact ⟨hsecs, hnone, hsome⟩
      | some h =>
        show GoodState (bulletsStep st h items)
        unfold bulletsStep
        by_cases hbs : bulletLines items = []
        · rw [if_pos hbs]; exact ⟨hsecs, hnone, hsome⟩
        · rw [if_neg hbs]
          refine ⟨hsecs, fun hh => Option.noConfusion hh, ?_⟩
          intro h2 hh2
          exact Option.some.inj hh2 ▸ hsome h hcur
  | table skip => exact ⟨hsecs, hnone, hsome⟩

theorem foldl_good (elems : List WikiElem) (st : ParseState) (hg : GoodState st) :
    GoodState (elems.foldl wikiStep st) := by
  induction elems generalizing st with
  | nil => exact hg
  | cons e r ih => exact ih _ (wikiStep_good st e hg)

theorem wikiFinalize_good (st : ParseState) (hg : GoodState st) :
    ∀ s ∈ wikiFinalize st, GoodSec s := by
  obtain ⟨hsecs, hnone, hsome⟩ := hg
  intro s hs
  unfold wikiFinalize at hs
  cases hcur : st.current.heading with
  | none => rw [hcur] at hs; exact hsecs s hs
  | some h =>
    rw [hcur] at hs
    by_cases hc : st.current.content ≠ [] ∧ h ≠ ""
    · simp [hc] at hs
      rcases hs with hs | hs
      · exact hsecs s hs
      · subst hs; exact ⟨h, hcur, hsome h hcur⟩
    · simp [hc] at hs
      exact hsecs s hs

theorem wikiSections_good (elems : List WikiElem) :
    ∀ s ∈ wikiSections elems, GoodSec s := by
  have hinit : GoodState ⟨[], ⟨some "Overview", []⟩⟩ := by
    refine ⟨by simp, by simp, ?_⟩
    intro h hh
    simp at hh
    subst hh
    decide
  exact wikiFinalize_good _ (foldl_good elems _ hinit)

theorem wikiSections_excluded_irrelevant (pre body post : List WikiElem) (hx : String)
    (hexcl : isExcludedHeading (headingText hx) = true)
    (hbody : ∀ e ∈ body, isRealHeading e = false) :
    wikiSections (pre ++ WikiElem.heading false hx :: body ++ post) =
      wikiSections (pre ++ WikiElem.heading false hx :: post) := by
  unfold wikiSections
  simp only [List.foldl_append, List.foldl_cons]
  rw [wikiStep_excluded _ _ hexcl, foldl_discard body _ rfl hbody]

/-- Hexadecimal digit used by percent-encoding. -/
def hexDigitChar (n : Nat) : Char :=
  if n < 10 then Char.ofNat ('0'.toNat + n) else Char.ofNat ('A'.toNat + (n - 10))

/-- Characters left untouched by `urllib.parse.quote` with its default
`safe='/'`. -/
def isQuoteSafe (c : Char) : Bool :=
  c.isAlpha || c.isDigit || c = '_' || c = '.' || c = '-' || c = '~' || c = '/'

/-- `urllib.parse.quote` on ASCII text. -/
def pyQuote (s : String) : String :=
  String.mk (s.data.foldr (fun c acc =>
    if isQuoteSafe c then c :: acc
    else '%' :: hexDigitChar (c.toNat / 16) :: hexDigitChar (c.toNat % 16) :: acc) [])

/-- The page URL built by `WikipediaSource.get_article`
(src/astro_scraper.py lines 287–288): spaces become underscores, then the
title is percent-encoded. -/
def wikiUrl (topic : String) : String :=
  "https://en.wikipedia.org/wiki/" ++
    pyQuote (String.mk (topic.data.map (fun c => if c = ' ' then '_' else c)))

/-- The `Document` dict returned on the success path of
`WikipediaSource.get_article` (src/astro_scraper.py lines 354–360).  `title`
is the `firstHeading` text when that element exists, otherwise the topic;
`elems` is the pre-parsed block-element list delivered by the DOM
collaborator; `now` is the `datetime.now().isoformat()` value. -/
def wikiGetArticle (topic : String) (title : Option String) (elems : List WikiElem)
    (now : String) : Document :=
  { title := match title with | some t => t | none => topic
    source := "Wikipedia"
    url := wikiUrl topic
    sections := wikiSections elems
    fetchedAt := now }

/-- C6.  Content under an excluded heading never reaches the returned
Document: (1) every emitted section carries a non-excluded heading; (2) the
whole stretch of non-heading elements following an excluded heading is
irrelevant to the output — parsing with it equals parsing without it; and
(3) on a concrete page, paragraphs under "References" are dropped while the
content of the later non-excluded heading "History" still appears. -/
theorem wiki_excluded_heading_content_discarded :
    (∀ (topic : String) (title : Option String) (elems : List WikiElem) (now : String),
      ∀ s ∈ (wikiGetArticle topic title elems now).sections,
        ∃ h, s.heading = some h ∧ isExcludedHeading h = false) ∧
    (∀ (pre body post : List WikiElem) (hx : String),
      isExcludedHeading (headingText hx) = true →
      (∀ e ∈ body, isRealHeading e = false) →
      wikiSections (pre ++ WikiElem.heading false hx :: body ++ post) =
        wikiSections (pre ++ WikiElem.heading false hx :: post)) ∧
    wikiSections [.para false "Intro text.", .heading false "References",
        .para false "Ref stuff.", .para false "More refs.", .heading false "History",
        .para false "Hist text."] =
      [⟨some "Overview", ["Intro text."]⟩, ⟨some "History", ["Hist text."]⟩] := by
  refine ⟨?_, ?_, by decide⟩
  · intro topic title elems now s hs
    exact wikiSections_good elems s hs
  · intro pre body post hx h1 h2
    exact wikiSections_excluded_irrelevant pre body post hx h1 h2

/-- Witness for C6: the theorem applied at concrete inputs. -/
theorem wiki_excluded_heading_content_discarded_witness :
    (∃ h, (DocSection.mk (some "Overview") ["Intro text."]).heading = some h ∧
      isExcludedHeading h = false) ∧
    wikiSections [WikiElem.heading false "References", WikiElem.para false "Ref stuff.",
        WikiElem.heading false "History", WikiElem.para false "Hist text."] =
      wikiSections [WikiElem.heading false "References",
        WikiElem.heading false "History", WikiElem.para false "Hist text."] :=
  ⟨wiki_excluded_heading_content_discarded.1 "Star" none
      [WikiElem.para false "Intro text."] "2026-01-01" _ (by decide),
    wiki_excluded_heading_content_discarded.2.1 [] [WikiElem.para false "Ref stuff."]
      [WikiElem.heading false "History", WikiElem.para false "Hist text."]
      "References" (by decide) (by decide)⟩

/-- A JSON value, covering the shapes a cache record can take. -/
inductive Json
  | null
  | str (s : String)
  | arr (xs : List Json)
  | obj (fields : List (String × Json))

/-- Serialization of a section dict by `json.dump`
(src/astro_scraper.py line 591): `None` headings become JSON null. -/
def sectionToJson (s : DocSection) : Json :=
  .obj [("heading", match s.heading with | some h => .str h | none => .null),
        ("content", .arr (s.content.map Json.str))]

/-- Serialization of a document dict by `json.dump`. -/
def documentToJson (d : Document) : Json :=
  .obj [("title", .str d.title), ("source", .str d.source), ("url", .str d.url),
        ("sections", .arr (d.sections.map sectionToJson)),
        ("fetched_at", .str d.fetchedAt)]

/-- Field access on a decoded JSON object. -/
def jsonLookup : List (String × Json) → String → Option Json
  | [], _ => none
  | (k2, v) :: r, k => if k2 = k then some v else jsonLookup r k

/-- A decoded JSON value read back as a string. -/
def jsonStr? : Json → Option String
  | .str s => some s
  | _ => none

/-- A decoded JSON array read back as a list of strings. -/
def jsonStrList? : List Json → Option (List String)
  | [] => some []
  | x :: r =>
    match jsonStr? x, jsonStrList? r with
    | some s, some rs => some (s :: rs)
    | _, _ => none

/-- Reading a section dict back from its `json.load` value; any shape other
than the one `_save_to_cache` writes fails the read. -/
def sectionFromJson? : Json → Option DocSection
  | .obj fields =>
    match jsonLookup fields "heading", jsonLookup fields "content" with
    | some hj, some (.arr cj) =>
      match (match hj with | .null => some none | .str h => some (some h) | _ => none),
          jsonStrList? cj with
      | some h, some cs => some ⟨h, cs⟩
      | _, _ => none
    | _, _ => none
  | _ => none

/-- Reading a list of section dicts back. -/
def sectionsFromJson? : List Json → Option (List DocSection)
  | [] => some []
  | x :: r =>
    match sectionFromJson? x, sectionsFromJson? r with
    | some s, some rs => some (s :: rs)
    | _, _ => none

/-- Reading a document dict back from its `json.load` value. -/
def documentFromJson? : Json → Option Document
  | .obj fields =>
    match jsonLookup fields "title", jsonLookup fields "source", jsonLookup fields "url",
        jsonLookup fields "sections", jsonLookup fields "fetched_at" with
    | some tj, some sj, some uj, some (.arr secj), some fj =>
      match jsonStr? tj, jsonStr? sj, jsonStr? uj, sectionsFromJson? secj, jsonStr? fj with
      | some t, some s, some u, some secs, some f => some ⟨t, s, u, secs, f⟩
      | _, _, _, _, _ => none
    | _, _, _, _, _ => none
  | _ => none

theorem jsonStrList_roundtrip (xs : List String) :
    jsonStrList? (xs.map Json.str) = some xs := by
  induction xs with
  | nil => rfl
  | cons x r ih => simp [jsonStrList?, jsonStr?, ih]

theorem sectionFromJson_roundtrip (s : DocSection) :
    sectionFromJson? (sectionToJson s) = some s := by
  cases s with
  | mk h c =>
    cases h <;>
      simp [sectionToJson, sectionFromJson?, jsonLookup, jsonStrList_roundtrip c]

theorem sectionsFromJson_roundtrip (ss : List DocSection) :
    sectionsFromJson? (ss.map sectionToJson) = some ss := by
  induction ss with
  | nil => rfl
  | cons s r ih => simp [sectionsFromJson?, sectionFromJson_roundtrip s, ih]

theorem documentFromJson_roundtrip (d : Document) :
    documentFromJson? (documentToJson d) = some d := by
  cases d with
  | mk t s u secs f =>
    simp [documentToJson, documentFromJson?, jsonLookup, jsonStr?,
      sectionsFromJson_roundtrip secs]

/-- The key string `f"{topic}_{source}"` hashed by `_get_cache_path`
(src/astro_scraper.py line 572). -/
def cacheKeyString (topic source : String) : String :=
  topic ++ "_" ++ source

/-- `_get_cache_path` (src/astro_scraper.py lines 570–573): the cache file
name for a pair is the hex md5 digest of the key string plus `.json`.  The
digest enters the model as the `hash` parameter: every statement proved
about `cachePath` below holds for every digest function, in particular
for md5. -/
def cachePath (hash : String → String) (topic source : String) : String :=
  hash (cacheKeyString topic source) ++ ".json"

/-- The cache directory contents: serialized records keyed by file name.
Writes prepend and reads take the most recent record, matching file
overwrite semantics. -/
def CacheStore : Type := List (String × Json)

/-- Reading the record at a path. -/
def cacheLookup : CacheStore → String → Option Json
  | [], _ => none
  | (p, j) :: r, q => if p = q then some j else cacheLookup r q

/-- `_save_to_cache` (src/astro_scraper.py lines 586–593): serialize the
document and write it at the pair's path. -/
def saveToCache (hash : String → String) (store : CacheStore) (topic source : String)
    (d : Document) : CacheStore :=
  (cachePath hash topic source, documentToJson d) :: store

/-- `_load_from_cache` (src/astro_scraper.py lines 575–584): read the
record at the pair's path and deserialize it; a missing or undecodable
record is a miss (`None`). -/
def loadFromCache (hash : String → String) (store : CacheStore) (topic source : String) :
    Option Document :=
  match cacheLookup store (cachePath hash topic source) with
  | some j => documentFromJson? j
  | none => none

theorem cache_put_get (hash : String → String) (store : CacheStore)
    (topic source : String) (d : Document) :
    loadFromCache hash (saveToCache hash store topic source d) topic source = some d := by
  unfold loadFromCache saveToCache cacheLookup
  rw [if_pos rfl]
  exact documentFromJson_roundtrip d

/-- C9.  The cache fingerprint is not injective: for every digest function
(md5 included) the distinct pairs `("a_b", "c")` and `("a", "b_c")` share
one key string `"a_b_c"`, hence one cache path, and a document cached for
the first pair is returned verbatim by a cache read for the second. -/
theorem cache_fingerprint_collision :
    ∀ hash : String → String,
      ("a_b", "c") ≠ (("a", "b_c") : String × String) ∧
      cachePath hash "a_b" "c" = cachePath hash "a" "b_c" ∧
      ∀ (store : CacheStore) (d : Document),
        loadFromCache hash (saveToCache hash store "a_b" "c" d) "a" "b_c" = some d := by
  intro hash
  have hkey : cacheKeyString "a_b" "c" = cacheKeyString "a" "b_c" := by decide
  have hpath : cachePath hash "a_b" "c" = cachePath hash "a" "b_c" := by
    unfold cachePath
    rw [hkey]
  refine ⟨by decide, hpath, ?_⟩
  intro store d
  unfold loadFromCache saveToCache cacheLookup
  rw [hpath, if_pos rfl]
  exact documentFromJson_roundtrip d

/-- Python `str.upper()` on ASCII text. -/
def pyUpper (s : String) : String :=
  String.mk (s.data.map Char.toUpper)

/-- Python `s.replace(" ", "_")`. -/
def replaceSpaces (s : String) : String :=
  String.mk (s.data.map (fun c => if c = ' ' then '_' else c))

/-- The outcome of one `get_article(topic)` call on one source adapter: a
document, `None`, or a raised exception.  The oracle stands for the network
and page content behind the adapters. -/
inductive AdapterResult
  | ok (d : Document)
  | absent
  | exc (msg : String)
deriving DecidableEq

/-- An adapter oracle: the outcome of `get_article topic` for the source
registered under each name. -/
def Oracle : Type := String → String → AdapterResult

/-- The keys of `AstronomyScraper.self.sources`
(src/astro_scraper.py lines 556–561). -/
def registeredSources : List String :=
  ["wikipedia", "nasa", "esa", "educational"]

/-- The mutable fields of `ProgressTracker` (src/app.py lines 231–239). -/
structure Progress where
  jobId : String
  total : Nat
  completed : Nat
  currentTopic : String
  currentSource : String
  status : String
  files : List String
deriving DecidableEq

/-- One progress snapshot as produced by `ProgressTracker.to_dict`
(src/app.py lines 246–256) and pushed onto the job's event queue.  Python's
float progress value is modelled exactly as a rational. -/
structure Snapshot where
  jobId : String
  total : Nat
  completed : Nat
  currentTopic : String
  currentSource : String
  status : String
  progress : ℚ
  filesCount : Nat
deriving DecidableEq

/-- `ProgressTracker.to_dict` (src/app.py lines 246–256). -/
def toDict (p : Progress) : Snapshot :=
  { jobId := p.jobId, total := p.total, completed := p.completed,
    currentTopic := p.currentTopic, currentSource := p.currentSource,
    status := p.status,
    progress := if p.total > 0 then (p.completed : ℚ) / (p.total : ℚ) * 100 else 0,
    filesCount := p.files.length }

/-- The state threaded through one worker run: the cache directory, the
tracker fields, the event stream pushed so far, the `get_article` calls
performed so far, and the artifacts written so far (path and bytes). -/
structure RunState where
  cache : CacheStore
  prog : Progress
  events : List Snapshot
  calls : List (String × String)
  artifacts : List (String × String)

/-- The queue push of `ProgressTracker.update` (src/app.py lines 241–244):
after the caller has set the fields, a full snapshot is appended to the
event stream. -/
def emit (st : RunState) : RunState :=
  { st with events := st.events ++ [toDict st.prog] }

/-- Configuration of one job run: the cache digest function, the adapter
oracle, `config.include_sources`, `config.output_dir`, and the formatted
clock value used for the `Generated:` artifact header. -/
structure JobConfig where
  hash : String → String
  oracle : Oracle
  includeSources : List String
  outputDir : String
  now : String

/-- Python dict assignment `results["sources"][k] = v`: replace in place or
append (insertion order is preserved, first insertion wins the position). -/
def dictInsert : List (String × Document) → String → Document → List (String × Document)
  | [], k, v => [(k, v)]
  | (k2, v2) :: r, k, v =>
    if k2 = k then (k2, v) :: r else (k2, v2) :: dictInsert r k v

/-- The result dict of `fetch_topic`: the topic and the per-source
documents collected for it. -/
structure TopicData where
  topic : String
  sources : List (String × Document)
deriving DecidableEq

/-- `self.progress.update(current_source=source_name)` (src/app.py
line 276). -/
def announceSource (s : String) (st : RunState) : RunState :=
  emit { st with prog := { st.prog with currentSource := s } }

/-- The cache probe guarding the adapter call (src/app.py lines 279–283):
only consulted when caching is enabled. -/
def cacheProbe (hash : String → String) (useCache : Bool) (topic s : String)
    (st : RunState) : Option Document :=
  if useCache then loadFromCache hash st.cache topic s else none

/-- Record one `get_article` invocation (the adapter is about to run). -/
def recordCall (topic s : String) (st : RunState) : RunState :=
  { st with calls := st.calls ++ [(topic, s)] }

/-- `if use_cache: self._save_to_cache(...)` (src/app.py lines 291–292). -/
def maybeSave (hash : String → String) (useCache : Bool) (topic s : String)
    (d : Document) (st : RunState) : RunState :=
  if useCache then { st with cache := saveToCache hash st.cache topic s d } else st

/-- The per-source loop of `WebScraper.fetch_topic` (src/app.py
lines 272–300): skip unregistered names, announce the source, serve from
cache when enabled and present, otherwise call the adapter — any exception
it raises is caught and contributes nothing (the bare `except Exception`
on line 296) — and save a successful fetch back to the cache. -/
def fetchSources (hash : String → String) (oracle : Oracle) (useCache : Bool)
    (topic : String) :
    List String → List (String × Document) → RunState →
      List (String × Document) × RunState
  | [], acc, st => (acc, st)
  | s :: rest, acc, st =>
    if s ∈ registeredSources then
      match cacheProbe hash useCache topic s (announceSource s st) with
      | some d => fetchSources hash oracle useCache topic rest (dictInsert acc s d)
          (announceSource s st)
      | none =>
        match oracle topic s with
        | .ok d => fetchSources hash oracle useCache topic rest (dictInsert acc s d)
            (maybeSave hash useCache topic s d (recordCall topic s (announceSource s st)))
        | .absent => fetchSources hash oracle useCache topic rest acc
            (recordCall topic s (announceSource s st))
        | .exc _ => fetchSources hash oracle useCache topic rest acc
            (recordCall topic s (announceSource s st))
    else fetchSources hash oracle useCache topic rest acc st

/-- `self.progress.update(current_topic=topic, status="fetching")`
(src/app.py line 268). -/
def announceTopic (topic : String) (st : RunState) : RunState :=
  emit { st with prog := { st.prog with currentTopic := topic, status := "fetching" } }

/-- `WebScraper.fetch_topic` (src/app.py lines 266–302): announce the topic
and walk the configured sources. -/
def fetchTopicW (cfg : JobConfig) (useCache : Bool) (topic : String) (st : RunState) :
    TopicData × RunState :=
  (⟨topic, (fetchSources cfg.hash cfg.oracle useCache topic cfg.includeSources []
      (announceTopic topic st)).1⟩,
   (fetchSources cfg.hash cfg.oracle useCache topic cfg.includeSources []
      (announceTopic topic st)).2)

/-- The per-source block of `generate_text_file`
(src/astro_scraper.py lines 640–653). -/
def sourceBlockLines (entry : String × Document) : List String :=
  ["\n" ++ String.mk (List.replicate 40 '─'),
   "  Source: " ++ pyUpper entry.2.source,
   "  URL: " ++ entry.2.url,
   String.mk (List.replicate 40 '─') ++ "\n"] ++
  (entry.2.sections.map (fun s =>
    (match s.heading with
      | some h => if h = "" then [] else ["\n## " ++ h ++ "\n"]
      | none => []) ++
    (s.content.map (fun p => [p, ""])).flatten)).flatten

/-- The line list built by `AstronomyScraper.generate_text_file`
(src/astro_scraper.py lines 626–660); `now` is the formatted
`datetime.now()` value placed in the `Generated:` header. -/
def genLines (td : TopicData) (category now : String) : List String :=
  [String.mk (List.replicate 80 '='),
   "  " ++ pyUpper td.topic,
   String.mk (List.replicate 80 '='),
   "\nCategory: " ++ category,
   "Generated: " ++ now,
   String.mk (List.replicate 80 '-')] ++
  (td.sources.map sourceBlockLines).flatten ++
  ["\n" ++ String.mk (List.replicate 80 '='),
   "  END OF DOCUMENT",
   String.mk (List.replicate 80 '=')]

/-- `AstronomyScraper.generate_text_file`: the artifact bytes. -/
def generateTextFile (td : TopicData) (category now : String) : String :=
  String.intercalate "\n" (genLines td category now)

/-- The artifact path built by `AstronomyScraper.save_topic`
(src/astro_scraper.py lines 662–672): category folder with spaces replaced,
topic sanitized of filesystem-hostile characters and spaces. -/
def savePath (outputDir category topic : String) : String :=
  outputDir ++ "/" ++ replaceSpaces category ++ "/" ++
    replaceSpaces (String.mk (topic.data.map (fun c =>
      if c ∈ ['<', '>', ':', '"', '/', '\\', '|', '?', '*'] then '_' else c))) ++ ".txt"

/-- The artifact write of the topic loop (src/app.py lines 311–314): when
any source contributed, `save_topic` renders and writes the artifact and its
path is appended to `progress.files` (no snapshot is emitted for this
mutation — `files.append` bypasses `update`). -/
def writeArtifact (cfg : JobConfig) (category : String) (td : TopicData)
    (st : RunState) : RunState :=
  if td.sources = [] then st
  else
    { st with
      artifacts := st.artifacts ++
        [(savePath cfg.outputDir category td.topic, generateTextFile td category cfg.now)],
      prog := { st.prog with
        files := st.prog.files ++ [savePath cfg.outputDir category td.topic] } }

/-- `self.progress.update(completed_topics=...+1, status="processing")`
(src/app.py lines 316–319). -/
def bumpCompleted (st : RunState) : RunState :=
  emit { st with prog :=
    { st.prog with completed := st.prog.completed + 1, status := "processing" } }

/-- One iteration of the topic loop in `WebScraper.scrape_category`
(src/app.py lines 304–321): fetch the topic (cache enabled by default),
write an artifact when any source contributed, then bump `completed_topics`
and emit the "processing" snapshot. -/
def scrapeTopicW (cfg : JobConfig) (category topic : String) (st : RunState) : RunState :=
  bumpCompleted (writeArtifact cfg category (fetchTopicW cfg true topic st).1
    (fetchTopicW cfg true topic st).2)

/-- `WebScraper.scrape_category` (src/app.py lines 304–321). -/
def scrapeCategoryW (cfg : JobConfig) (category : String) (topics : List String)
    (st : RunState) : RunState :=
  topics.foldl (fun st t => scrapeTopicW cfg category t st) st

/-- `run_scrape_job` (src/app.py lines 324–373) on its success path: total
topic count, the "starting" snapshot, the category loop, and the final
"complete" snapshot.  A category's payload is its topic list — the dict
layout and the bare-list layout of the submission are both read back to
exactly that list, identically in the total and in the loop. -/
def runScrapeJob (cfg : JobConfig) (jobId : String)
    (categories : List (String × List String)) (initCache : CacheStore) : RunState :=
  let total := (categories.map (fun c => c.2.length)).sum
  let st0 : RunState :=
    { cache := initCache, prog := ⟨jobId, 0, 0, "", "", "initializing", []⟩,
      events := [], calls := [], artifacts := [] }
  let st1 := emit { st0 with prog := { st0.prog with total := total, status := "starting" } }
  let st2 := categories.foldl (fun st c => scrapeCategoryW cfg c.1 c.2 st) st1
  emit { st2 with prog := { st2.prog with status := "complete" } }

/-- The counts recorded by the index/manifest written at the end of
`run_scrape_job` (src/app.py lines 354–362): per-category topic counts and
the total file count. -/
def runManifest (categories : List (String × List String)) (st : RunState) :
    List (String × Nat) × Nat :=
  (categories.map (fun c => (c.1, c.2.length)), st.prog.files.length)

/-- The progress formula of `ProgressTracker.to_dict`: the fraction of
completed topics as a percentage, 0 for an empty job. -/
def SnapOK (e : Snapshot) : Prop :=
  e.progress = if e.total > 0 then (e.completed : ℚ) / (e.total : ℚ) * 100 else 0

theorem snapOK_toDict (p : Progress) : SnapOK (toDict p) := rfl

theorem snapOK_emit (st : RunState) (h : ∀ e ∈ st.events, SnapOK e) :
    ∀ e ∈ (emit st).events, SnapOK e := by
  intro e he
  rcases List.mem_append.mp he with he | he
  · exact h e he
  · rw [List.mem_singleton.mp he]
    exact snapOK_toDict _

theorem maybeSave_events (hash : String → String) (u : Bool) (topic s : String)
    (d : Document) (st : RunState) : (maybeSave hash u topic s d st).events = st.events := by
  unfold maybeSave
  split <;> rfl

theorem writeArtifact_events (cfg : JobConfig) (category : String) (td : TopicData)
    (st : RunState) : (writeArtifact cfg category td st).events = st.events := by
  unfold writeArtifact
  split <;> rfl

theorem fetchSources_eventsOK (hash : String → String) (oracle : Oracle)
    (useCache : Bool) (topic : String) :
    ∀ (srcs : List String) (acc : List (String × Document)) (st : RunState),
      (∀ e ∈ st.events, SnapOK e) →
      ∀ e ∈ (fetchSources hash oracle useCache topic srcs acc st).2.events, SnapOK e := by
  intro srcs
  induction srcs with
  | nil => intro acc st h; exact h
  | cons s rest ih =>
    intro acc st h
    have h1 : ∀ e ∈ (announceSource s st).events, SnapOK e := snapOK_emit _ h
    unfold fetchSources
    by_cases hreg : s ∈ registeredSources
    · rw [if_pos hreg]
      cases hload : cacheProbe hash useCache topic s (announceSource s st) with
      | some d => exact ih _ _ h1
      | none =>
        cases hor : oracle topic s with
        | ok d =>
          refine ih _ _ ?_
          rw [maybeSave_events]
          exact h1
        | absent => exact ih _ _ h1
        | exc m => exact ih _ _ h1
    · rw [if_neg hreg]
      exact ih _ _ h

theorem fetchTopicW_eventsOK (cfg : JobConfig) (useCache : Bool) (topic : String)
    (st : RunState) (h : ∀ e ∈ st.events, SnapOK e) :
    ∀ e ∈ (fetchTopicW cfg useCache topic st).2.events, SnapOK e :=
  fetchSources_eventsOK cfg.hash cfg.oracle useCache topic cfg.includeSources [] _
    (snapOK_emit _ h)

theorem scrapeTopicW_eventsOK (cfg : JobConfig) (category topic : String)
    (st : RunState) (h : ∀ e ∈ st.events, SnapOK e) :
    ∀ e ∈ (scrapeTopicW cfg category topic st).events, SnapOK e := by
  have h1 := fetchTopicW_eventsOK cfg true topic st h
  unfold scrapeTopicW bumpCompleted
  apply snapOK_emit
  intro e he
  dsimp only at he
  rw [writeArtifact_events] at he
  exact h1 e he

theorem scrapeCategoryW_eventsOK (cfg : JobConfig) (category : String) :
    ∀ (topics : List String) (st : RunState),
      (∀ e ∈ st.events, SnapOK e) →
      ∀ e ∈ (scrapeCategoryW cfg category topics st).events, SnapOK e := by
  intro topics
  induction topics with
  | nil => intro st h; exact h
  | cons t rest ih =>
    intro st h
    exact ih _ (scrapeTopicW_eventsOK cfg category t st h)

theorem categoriesFold_eventsOK (cfg : JobConfig) :
    ∀ (cats : List (String × List String)) (st : RunState),
      (∀ e ∈ st.events, SnapOK e) →
      ∀ e ∈ (cats.foldl (fun st c => scrapeCategoryW cfg c.1 c.2 st) st).events, SnapOK e := by
  intro cats
  induction cats with
  | nil => intro st h; exact h
  | cons c rest ih =>
    intro st h
    exact ih _ (scrapeCategoryW_eventsOK cfg c.1 c.2 st h)

/-- C8.  Every snapshot pushed onto a job's event stream reports
`progress = completed_topics / total_topics * 100` when `total_topics > 0`
and `progress = 0` when `total_topics = 0`. -/
theorem progress_formula (cfg : JobConfig) (jobId : String)
    (categories : List (String × List String)) (initCache : CacheStore) :
    ∀ e ∈ (runScrapeJob cfg jobId categories initCache).events,
      e.progress = if e.total > 0 then (e.completed : ℚ) / (e.total : ℚ) * 100 else 0 := by
  unfold runScrapeJob
  exact snapOK_emit _ (categoriesFold_eventsOK cfg categories _ (snapOK_emit _ (by simp)))

/-- A snapshot that reaches full progress (completed = total on a non-empty
job) only in the "processing" or "complete" status. -/
def SnapAt100OK (e : Snapshot) : Prop :=
  e.total > 0 → e.completed = e.total → e.status = "processing" ∨ e.status = "complete"

theorem snapAt100_toDict_of_lt (p : Progress) (h : p.completed < p.total) :
    SnapAt100OK (toDict p) :=
  fun _ h2 => absurd h2 (Nat.ne_of_lt h)

theorem snapAt100_emit (st : RunState) (h : ∀ e ∈ st.events, SnapAt100OK e)
    (hp : SnapAt100OK (toDict st.prog)) :
    ∀ e ∈ (emit st).events, SnapAt100OK e := by
  intro e he
  rcases List.mem_append.mp he with he | he
  · exact h e he
  · rw [List.mem_singleton.mp he]
    exact hp

theorem maybeSave_prog (hash : String → String) (u : Bool) (topic s : String)
    (d : Document) (st : RunState) : (maybeSave hash u topic s d st).prog = st.prog := by
  unfold maybeSave
  split <;> rfl

theorem writeArtifact_prog_completed (cfg : JobConfig) (category : String)
    (td : TopicData) (st : RunState) :
    (writeArtifact cfg category td st).prog.completed = st.prog.completed := by
  unfold writeArtifact
  split <;> rfl

theorem writeArtifact_prog_total (cfg : JobConfig) (category : String)
    (td : TopicData) (st : RunState) :
    (writeArtifact cfg category td st).prog.total = st.prog.total := by
  unfold writeArtifact
  split <;> rfl

theorem fetchSources_c1 (hash : String → String) (oracle : Oracle) (useCache : Bool)
    (topic : String) :
    ∀ (srcs : List String) (acc : List (String × Document)) (st : RunState),
      (∀ e ∈ st.events, SnapAt100OK e) →
      st.prog.completed < st.prog.total →
      (∀ e ∈ (fetchSources hash oracle useCache topic srcs acc st).2.events, SnapAt100OK e) ∧
      (fetchSources hash oracle useCache topic srcs acc st).2.prog.completed = st.prog.completed ∧
      (fetchSources hash oracle useCache topic srcs acc st).2.prog.total = st.prog.total := by
  intro srcs
  induction srcs with
  | nil => intro acc st h hlt; exact ⟨h, rfl, rfl⟩
  | cons s rest ih =>
    intro acc st h hlt
    have h1 : ∀ e ∈ (announceSource s st).events, SnapAt100OK e :=
      snapAt100_emit _ h (snapAt100_toDict_of_lt _ hlt)
    have hlt1 : (announceSource s st).prog.completed < (announceSource s st).prog.total := hlt
    unfold fetchSources
    by_cases hreg : s ∈ registeredSources
    · rw [if_pos hreg]
      cases hload : cacheProbe hash useCache topic s (announceSource s st) with
      | some d => exact ih _ _ h1 hlt1
      | none =>
        cases hor : oracle topic s with
        | ok d =>
          have h2 : ∀ e ∈ (maybeSave hash useCache topic s d
              (recordCall topic s (announceSource s st))).events, SnapAt100OK e := by
            rw [maybeSave_events]
            exact h1
          have hlt2 : (maybeSave hash useCache topic s d
              (recordCall topic s (announceSource s st))).prog.completed <
              (maybeSave hash useCache topic s d
                (recordCall topic s (announceSource s st))).prog.total := by
            rw [maybeSave_prog]
            exact hlt1
          obtain ⟨hev, hc, ht⟩ := ih _ _ h2 hlt2
          refine ⟨hev, ?_, ?_⟩
          · rw [hc, maybeSave_prog]; rfl
          · rw [ht, maybeSave_prog]; rfl
        | absent => exact ih _ _ h1 hlt1
        | exc m => exact ih _ _ h1 hlt1
    · rw [if_neg hreg]
      exact ih _ _ h hlt

theorem fetchTopicW_c1 (cfg : JobConfig) (topic : String) (st : RunState)
    (h : ∀ e ∈ st.events, SnapAt100OK e)
    (hlt : st.prog.completed < st.prog.total) :
    (∀ e ∈ (fetchTopicW cfg true topic st).2.events, SnapAt100OK e) ∧
    (fetchTopicW cfg true topic st).2.prog.completed = st.prog.completed ∧
    (fetchTopicW cfg true topic st).2.prog.total = st.prog.total :=
  fetchSources_c1 cfg.hash cfg.oracle true topic cfg.includeSources []
    (announceTopic topic st)
    (snapAt100_emit _ h (snapAt100_toDict_of_lt _ hlt)) hlt

theorem scrapeTopicW_c1 (cfg : JobConfig) (category topic : String) (st : RunState)
    (h : ∀ e ∈ st.events, SnapAt100OK e)
    (hlt : st.prog.completed < st.prog.total) :
    (∀ e ∈ (scrapeTopicW cfg category topic st).events, SnapAt100OK e) ∧
    (scrapeTopicW cfg category topic st).prog.completed = st.prog.completed + 1 ∧
    (scrapeTopicW cfg category topic st).prog.total = st.prog.total := by
  obtain ⟨hev, hc, ht⟩ := fetchTopicW_c1 cfg topic st h hlt
  unfold scrapeTopicW bumpCompleted
  refine ⟨?_, ?_, ?_⟩
  · apply snapAt100_emit
    · intro e he
      dsimp only at he
      rw [writeArtifact_events] at he
      exact hev e he
    · intro _ _
      exact Or.inl rfl
  · show (writeArtifact cfg category _ _).prog.completed + 1 = st.prog.completed + 1
    rw [writeArtifact_prog_completed, hc]
  · show (writeArtifact cfg category _ _).prog.total = st.prog.total
    rw [writeArtifact_prog_total, ht]

theorem scrapeCategoryW_c1 (cfg : JobConfig) (category : String) :
    ∀ (topics : List String) (st : RunState),
      (∀ e ∈ st.events, SnapAt100OK e) →
      st.prog.completed + topics.length ≤ st.prog.total →
      (∀ e ∈ (scrapeCategoryW cfg category topics st).events, SnapAt100OK e) ∧
      (scrapeCategoryW cfg category topics st).prog.completed =
        st.prog.completed + topics.length ∧
      (scrapeCategoryW cfg category topics st).prog.total = st.prog.total := by
  intro topics
  induction topics with
  | nil => intro st h hle; exact ⟨h, rfl, rfl⟩
  | cons t rest ih =>
    intro st h hle
    have hlt : st.prog.completed < st.prog.total := by
      simp only [List.length_cons] at hle
      omega
    obtain ⟨hev1, hc1, ht1⟩ := scrapeTopicW_c1 cfg category t st h hlt
    have hle2 : (scrapeTopicW cfg category t st).prog.completed + rest.length ≤
        (scrapeTopicW cfg category t st).prog.total := by
      rw [hc1, ht1]
      simp only [List.length_cons] at hle
      omega
    obtain ⟨hev2, hc2, ht2⟩ := ih (scrapeTopicW cfg category t st) hev1 hle2
    have hcons : scrapeCategoryW cfg category (t :: rest) st =
        scrapeCategoryW cfg category rest (scrapeTopicW cfg category t st) := rfl
    refine ⟨hev2, ?_, ?_⟩
    · rw [hcons, hc2, hc1]
      simp only [List.length_cons]
      omega
    · rw [hcons, ht2, ht1]

theorem categoriesFold_c1 (cfg : JobConfig) :
    ∀ (cats : List (String × List String)) (st : RunState),
      (∀ e ∈ st.events, SnapAt100OK e) →
      st.prog.completed + (cats.map (fun c => c.2.length)).sum = st.prog.total →
      ∀ e ∈ (cats.foldl (fun st c => scrapeCategoryW cfg c.1 c.2 st) st).events,
        SnapAt100OK e := by
  intro cats
  induction cats with
  | nil => intro st h _; exact h
  | cons c rest ih =>
    intro st h hsum
    have hle : st.prog.completed + c.2.length ≤ st.prog.total := by
      simp only [List.map_cons, List.sum_cons] at hsum
      omega
    obtain ⟨hev, hc, ht⟩ := scrapeCategoryW_c1 cfg c.1 c.2 st h hle
    refine ih _ hev ?_
    rw [hc, ht]
    simp only [List.map_cons, List.sum_cons] at hsum
    omega

/-- C1 counterexample.  In a concrete one-category, one-topic job, the
fourth snapshot of the event stream — emitted by `scrape_category` right
after the last topic, with status "processing" — already has
`completed_topics = total_topics = 1` and `progress = 100`, while its
status is not "complete". -/
theorem progress100_processing_counterexample :
    ((runScrapeJob ⟨fun k => k, fun _ _ => .absent, ["wikipedia"], "out", "now"⟩ "j"
        [("c", ["t"])] []).events.map
      (fun e => (e.completed, e.total, e.status)))[3]? = some (1, 1, "processing") ∧
    ((runScrapeJob ⟨fun k => k, fun _ _ => .absent, ["wikipedia"], "out", "now"⟩ "j"
        [("c", ["t"])] []).events.map Snapshot.progress)[3]? = some 100 ∧
    ("processing" : String) ≠ "complete" := by
  refine ⟨by decide, ?_, by decide⟩
  have h3 : ((runScrapeJob ⟨fun k => k, fun _ _ => .absent, ["wikipedia"], "out", "now"⟩ "j"
      [("c", ["t"])] []).events)[3]? =
      some (toDict ⟨"j", 1, 1, "t", "wikipedia", "processing", []⟩) := rfl
  rw [List.getElem?_map, h3]
  simp [toDict]

/-- C1 (amended).  A snapshot with `completed_topics = total_topics > 0`
(progress 100) can be emitted with status "processing" — this happens right
after the final topic — as well as with status "complete"; no other status
reaches full progress.  The worker emits the "complete" snapshot only after
the last "processing" one. -/
theorem progress_100_amended (cfg : JobConfig) (jobId : String)
    (categories : List (String × List String)) (initCache : CacheStore) :
    ∀ e ∈ (runScrapeJob cfg jobId categories initCache).events,
      e.total > 0 → e.completed = e.total →
      e.status = "processing" ∨ e.status = "complete" := by
  unfold runScrapeJob
  refine snapAt100_emit _ (categoriesFold_c1 cfg categories _
    (snapAt100_emit _ ?_ ?_) ?_) ?_
  · simp
  · intro h1 h2
    exact absurd h2 (Nat.ne_of_lt h1)
  · exact Nat.zero_add _
  · intro _ _
    exact Or.inr rfl

/-- Witness for C1: the theorem applied to the "processing" snapshot of a
concrete run. -/
theorem progress_100_amended_witness :
    (toDict ⟨"j", 1, 1, "t", "wikipedia", "processing", []⟩).status = "processing" ∨
    (toDict ⟨"j", 1, 1, "t", "wikipedia", "processing", []⟩).status = "complete" :=
  progress_100_amended ⟨fun k => k, fun _ _ => .absent, ["wikipedia"], "out", "now"⟩
    "j" [("c", ["t"])] [] (toDict ⟨"j", 1, 1, "t", "wikipedia", "processing", []⟩)
    (List.Mem.tail _ (List.Mem.tail _ (List.Mem.tail _ (List.Mem.head _))))
    (by decide) (by decide)

/-- Witness for C8: the theorem applied to the starting snapshot of a
concrete one-topic job. -/
theorem progress_formula_witness :
    (toDict ⟨"j", 1, 0, "", "", "starting", []⟩).progress =
      if (toDict ⟨"j", 1, 0, "", "", "starting", []⟩).total > 0
      then ((toDict ⟨"j", 1, 0, "", "", "starting", []⟩).completed : ℚ) /
        ((toDict ⟨"j", 1, 0, "", "", "starting", []⟩).total : ℚ) * 100 else 0 :=
  progress_formula ⟨fun k => k, fun _ _ => .absent, ["wikipedia"], "out", "now"⟩
    "j" [("c", ["t"])] [] (toDict ⟨"j", 1, 0, "", "", "starting", []⟩) (List.Mem.head _)

theorem loadFromCache_save_isSome (hash : String → String) (store : CacheStore)
    (topic s t2 s2 : String) (d : Document)
    (h : (loadFromCache hash store topic s).isSome = true) :
    (loadFromCache hash (saveToCache hash store t2 s2 d) topic s).isSome = true := by
  show (match (if cachePath hash t2 s2 = cachePath hash topic s
      then some (documentToJson d) else cacheLookup store (cachePath hash topic s)) with
    | some j => documentFromJson? j
    | none => none).isSome = true
  by_cases hp : cachePath hash t2 s2 = cachePath hash topic s
  · rw [if_pos hp]
    simp [documentFromJson_roundtrip]
  · rw [if_neg hp]
    exact h

theorem fetchSources_no_refetch (hash : String → String) (oracle : Oracle)
    (topic s₀ : String) :
    ∀ (srcs : List String) (acc : List (String × Document)) (st : RunState),
      (loadFromCache hash st.cache topic s₀).isSome = true →
      (topic, s₀) ∉ st.calls →
      (topic, s₀) ∉ (fetchSources hash oracle true topic srcs acc st).2.calls := by
  intro srcs
  induction srcs with
  | nil => intro acc st hc hn; exact hn
  | cons s rest ih =>
    intro acc st hc hn
    unfold fetchSources
    by_cases hreg : s ∈ registeredSources
    · rw [if_pos hreg]
      cases hload : cacheProbe hash true topic s (announceSource s st) with
      | some d => exact ih _ _ hc hn
      | none =>
        have hs : s ≠ s₀ := by
          intro he
          subst he
          rw [show cacheProbe hash true topic s (announceSource s st) =
            loadFromCache hash st.cache topic s from rfl] at hload
          rw [hload] at hc
          exact Bool.noConfusion hc
        have hnotmem : (topic, s₀) ∉ st.calls ++ [(topic, s)] := by
          intro hmem
          rcases List.mem_append.mp hmem with hmem | hmem
          · exact hn hmem
          · have := congrArg Prod.snd (List.mem_singleton.mp hmem)
            exact hs (this.symm)
        cases hor : oracle topic s with
        | ok d =>
          refine ih _ _ ?_ ?_
          · rw [show (maybeSave hash true topic s d
              (recordCall topic s (announceSource s st))).cache =
                saveToCache hash st.cache topic s d from rfl]
            exact loadFromCache_save_isSome hash st.cache topic s₀ topic s d hc
          · exact hnotmem
        | absent => exact ih _ _ hc hnotmem
        | exc m => exact ih _ _ hc hnotmem
    · rw [if_neg hreg]
      exact ih _ _ hc hn

/-- C5.  Cache round-trip and no-refetch: a `put` followed by a `get` with
the same (topic, source) key returns the same document, and when caching is
enabled, a topic fetch performs no `get_article` call for a pair whose
entry is already in the cache. -/
theorem cache_roundtrip_and_no_refetch :
    (∀ (hash : String → String) (store : CacheStore) (topic source : String)
        (d : Document),
      loadFromCache hash (saveToCache hash store topic source d) topic source = some d) ∧
    (∀ (cfg : JobConfig) (topic s₀ : String) (st : RunState),
      (loadFromCache cfg.hash st.cache topic s₀).isSome = true →
      (topic, s₀) ∉ st.calls →
      (topic, s₀) ∉ (fetchTopicW cfg true topic st).2.calls) := by
  refine ⟨cache_put_get, ?_⟩
  intro cfg topic s₀ st hc hn
  exact fetchSources_no_refetch cfg.hash cfg.oracle topic s₀ cfg.includeSources []
    (announceTopic topic st) hc hn

/-- Witness for C5: a concrete put/get round-trip, and a topic fetch whose
only configured source is served from the cache without an adapter call. -/
theorem cache_roundtrip_and_no_refetch_witness :
    loadFromCache (fun k => k)
        (saveToCache (fun k => k) [] "t" "wikipedia" ⟨"T", "Wikipedia", "u", [], "ts"⟩)
        "t" "wikipedia" = some ⟨"T", "Wikipedia", "u", [], "ts"⟩ ∧
    ("t", "wikipedia") ∉ (fetchTopicW
        ⟨fun k => k, fun _ _ => .absent, ["wikipedia"], "out", "now"⟩ true "t"
        ⟨saveToCache (fun k => k) [] "t" "wikipedia" ⟨"T", "Wikipedia", "u", [], "ts"⟩,
          ⟨"j", 1, 0, "", "", "initializing", []⟩, [], [], []⟩).2.calls :=
  ⟨cache_roundtrip_and_no_refetch.1 (fun k => k) [] "t" "wikipedia" _,
   cache_roundtrip_and_no_refetch.2
     ⟨fun k => k, fun _ _ => .absent, ["wikipedia"], "out", "now"⟩ "t" "wikipedia"
     ⟨saveToCache (fun k => k) [] "t" "wikipedia" ⟨"T", "Wikipedia", "u", [], "ts"⟩,
       ⟨"j", 1, 0, "", "", "initializing", []⟩, [], [], []⟩
     (by decide) (by decide)⟩

/-- Two adapter outcomes the fetch loop cannot distinguish: equal documents,
or any two failures (absence and caught exceptions act identically). -/
def sameEffect : AdapterResult → AdapterResult → Prop
  | .ok d, .ok d2 => d = d2
  | .ok _, .absent => False
  | .ok _, .exc _ => False
  | .absent, .ok _ => False
  | .exc _, .ok _ => False
  | _, _ => True

theorem sameEffect_refl (r : AdapterResult) : sameEffect r r := by
  cases r <;> trivial

theorem fetchSources_congr_effect (hash : String → String) (o o2 : Oracle)
    (u : Bool) (topic : String)
    (hagree : ∀ s, sameEffect (o topic s) (o2 topic s)) :
    ∀ (srcs : List String) (acc : List (String × Document)) (st : RunState),
      fetchSources hash o u topic srcs acc st =
        fetchSources hash o2 u topic srcs acc st := by
  intro srcs
  induction srcs with
  | nil => intro acc st; rfl
  | cons s rest ih =>
    intro acc st
    unfold fetchSources
    by_cases hreg : s ∈ registeredSources
    · rw [if_pos hreg, if_pos hreg]
      cases hload : cacheProbe hash u topic s (announceSource s st) with
      | some d => exact ih _ _
      | none =>
        have hs := hagree s
        cases ho : o topic s with
        | ok d =>
          cases ho2 : o2 topic s with
          | ok d2 =>
            rw [ho, ho2] at hs
            have hd : d = d2 := hs
            subst hd
            exact ih _ _
          | absent => rw [ho, ho2] at hs; exact hs.elim
          | exc m => rw [ho, ho2] at hs; exact hs.elim
        | absent =>
          cases ho2 : o2 topic s with
          | ok d2 => rw [ho, ho2] at hs; exact hs.elim
          | absent => exact ih _ _
          | exc m => exact ih _ _
        | exc m =>
          cases ho2 : o2 topic s with
          | ok d2 => rw [ho, ho2] at hs; exact hs.elim
          | absent => exact ih _ _
          | exc m2 => exact ih _ _
    · rw [if_neg hreg, if_neg hreg]
      exact ih _ _

/-- Replacing the outcome of one (topic, source) pair in an oracle. -/
def oracleOverride (o : Oracle) (topic s : String) (r : AdapterResult) : Oracle :=
  fun t s2 => if t = topic ∧ s2 = s then r else o t s2

theorem runScrapeJob_last_complete (cfg : JobConfig) (jobId : String)
    (cats : List (String × List String)) (cache : CacheStore) :
    ((runScrapeJob cfg jobId cats cache).events.getLast?).map Snapshot.status =
      some "complete" := by
  unfold runScrapeJob emit
  rw [List.getLast?_concat]
  rfl

/-- C3.  An exception raised by one source's `get_article` is caught and
has exactly the effect of that source returning nothing: the whole
`fetch_topic` result — the documents collected for every other source, the
cache, the event stream, the recorded calls — is identical to a run in
which that (topic, source) pair is merely absent; and every worker run
still terminates with a "complete" final snapshot. -/
theorem adapter_exception_isolated :
    (∀ (cfg : JobConfig) (topic s msg : String) (st : RunState) (u : Bool),
      cfg.oracle topic s = .exc msg →
      fetchTopicW cfg u topic st =
        fetchTopicW { cfg with oracle := oracleOverride cfg.oracle topic s .absent }
          u topic st) ∧
    (∀ (cfg : JobConfig) (jobId : String) (cats : List (String × List String))
        (cache : CacheStore),
      ((runScrapeJob cfg jobId cats cache).events.getLast?).map Snapshot.status =
        some "complete") := by
  constructor
  · intro cfg topic s msg st u hexc
    have hagree : ∀ s2, sameEffect (cfg.oracle topic s2)
        (oracleOverride cfg.oracle topic s .absent topic s2) := by
      intro s2
      unfold oracleOverride
      by_cases h2 : topic = topic ∧ s2 = s
      · rw [if_pos h2, h2.2, hexc]
        trivial
      · rw [if_neg h2]
        exact sameEffect_refl _
    unfold fetchTopicW
    dsimp only
    rw [fetchSources_congr_effect cfg.hash cfg.oracle
      (oracleOverride cfg.oracle topic s .absent) u topic hagree]
  · intro cfg jobId cats cache
    exact runScrapeJob_last_complete cfg jobId cats cache

/-- Witness for C3: a two-source job where the nasa adapter raises; the
fetch result equals the absent-variant run, and the job still ends
complete. -/
theorem adapter_exception_isolated_witness :
    fetchTopicW
        ⟨fun k => k,
          (fun _ s2 => if s2 = "wikipedia"
            then .ok ⟨"T", "Wikipedia", "u", [], "ts"⟩ else .exc "boom"),
          ["wikipedia", "nasa"], "out", "now"⟩ true "t"
        ⟨[], ⟨"j", 1, 0, "", "", "initializing", []⟩, [], [], []⟩ =
      fetchTopicW
        ⟨fun k => k,
          oracleOverride
            (fun _ s2 => if s2 = "wikipedia"
              then .ok ⟨"T", "Wikipedia", "u", [], "ts"⟩ else .exc "boom")
            "t" "nasa" .absent,
          ["wikipedia", "nasa"], "out", "now"⟩ true "t"
        ⟨[], ⟨"j", 1, 0, "", "", "initializing", []⟩, [], [], []⟩ :=
  adapter_exception_isolated.1
    ⟨fun k => k,
      (fun _ s2 => if s2 = "wikipedia"
        then .ok ⟨"T", "Wikipedia", "u", [], "ts"⟩ else .exc "boom"),
      ["wikipedia", "nasa"], "out", "now"⟩ "t" "nasa" "boom"
    ⟨[], ⟨"j", 1, 0, "", "", "initializing", []⟩, [], [], []⟩ true (by decide)

/-- The document an adapter yields for a pair, ignoring how it fails
(absence and exceptions both yield nothing). -/
def oracleDoc (oracle : Oracle) (t s : String) : Option Document :=
  match oracle t s with
  | .ok d => some d
  | .absent => none
  | .exc _ => none

/-- The document the fetch loop ends up with for a pair under a given cache
state: the cached document if the pair's record is present and readable,
otherwise whatever the adapter yields. -/
def pairOutcome (hash : String → String) (oracle : Oracle) (c : CacheStore)
    (t s : String) : Option Document :=
  match loadFromCache hash c t s with
  | some d => some d
  | none => oracleDoc oracle t s

/-- The results dict `fetch_topic` assembles, expressed directly from the
per-pair outcomes under one fixed cache state. -/
def fetchSpec (hash : String → String) (oracle : Oracle) (c : CacheStore)
    (topic : String) : List String → List (String × Document) → List (String × Document)
  | [], acc => acc
  | s :: rest, acc =>
    if s ∈ registeredSources then
      match pairOutcome hash oracle c topic s with
      | some d => fetchSpec hash oracle c topic rest (dictInsert acc s d)
      | none => fetchSpec hash oracle c topic rest acc
    else fetchSpec hash oracle c topic rest acc

theorem loadFromCache_save_ne (hash : String → String) (store : CacheStore)
    (t s t2 s2 : String) (d : Document)
    (hne : cachePath hash t2 s2 ≠ cachePath hash t s) :
    loadFromCache hash (saveToCache hash store t2 s2 d) t s =
      loadFromCache hash store t s := by
  show (match (if cachePath hash t2 s2 = cachePath hash t s
      then some (documentToJson d) else cacheLookup store (cachePath hash t s)) with
    | some j => documentFromJson? j
    | none => none) = _
  rw [if_neg hne]
  rfl

theorem loadFromCache_save_self (hash : String → String) (store : CacheStore)
    (t s : String) (d : Document) :
    loadFromCache hash (saveToCache hash store t s d) t s = some d :=
  cache_put_get hash store t s d

theorem pairOutcome_save_ne (hash : String → String) (oracle : Oracle)
    (store : CacheStore) (t s t2 s2 : String) (d : Document)
    (hne : cachePath hash t2 s2 ≠ cachePath hash t s) :
    pairOutcome hash oracle (saveToCache hash store t2 s2 d) t s =
      pairOutcome hash oracle store t s := by
  unfold pairOutcome
  rw [loadFromCache_save_ne hash store t s t2 s2 d hne]

theorem pairOutcome_save_self (hash : String → String) (oracle : Oracle)
    (store : CacheStore) (t s : String) (d : Document)
    (hd : oracleDoc oracle t s = some d)
    (hmiss : loadFromCache hash store t s = none) :
    pairOutcome hash oracle (saveToCache hash store t s d) t s =
      pairOutcome hash oracle store t s := by
  unfold pairOutcome
  rw [loadFromCache_save_self, hmiss, hd]

theorem fetchSpec_congr (hash : String → String) (oracle : Oracle)
    (c1 c2 : CacheStore) (topic : String) :
    ∀ (srcs : List String) (acc : List (String × Document)),
      (∀ s ∈ srcs, pairOutcome hash oracle c1 topic s = pairOutcome hash oracle c2 topic s) →
      fetchSpec hash oracle c1 topic srcs acc = fetchSpec hash oracle c2 topic srcs acc := by
  intro srcs
  induction srcs with
  | nil => intro acc _; rfl
  | cons s rest ih =>
    intro acc hout
    unfold fetchSpec
    by_cases hreg : s ∈ registeredSources
    · rw [if_pos hreg, if_pos hreg, hout s (by simp)]
      cases pairOutcome hash oracle c2 topic s with
      | some d => exact ih _ (fun s2 hs2 => hout s2 (by simp [hs2]))
      | none => exact ih _ (fun s2 hs2 => hout s2 (by simp [hs2]))
    · rw [if_neg hreg, if_neg hreg]
      exact ih _ (fun s2 hs2 => hout s2 (by simp [hs2]))

theorem maybeSave_artifacts (hash : String → String) (u : Bool) (topic s : String)
    (d : Document) (st : RunState) :
    (maybeSave hash u topic s d st).artifacts = st.artifacts := by
  unfold maybeSave
  split <;> rfl

theorem fetchSources_spec (hash : String → String) (oracle : Oracle) (topic : String) :
    ∀ (srcs : List String) (acc : List (String × Document)) (st : RunState),
      (∀ s1 ∈ srcs, ∀ s2 ∈ srcs,
        cachePath hash topic s1 = cachePath hash topic s2 → s1 = s2) →
      (fetchSources hash oracle true topic srcs acc st).1 =
        fetchSpec hash oracle st.cache topic srcs acc := by
  intro srcs
  induction srcs with
  | nil => intro acc st _; rfl
  | cons s rest ih =>
    intro acc st hpath
    have hrest : ∀ s1 ∈ rest, ∀ s2 ∈ rest,
        cachePath hash topic s1 = cachePath hash topic s2 → s1 = s2 :=
      fun s1 h1 s2 h2 => hpath s1 (List.mem_cons_of_mem _ h1) s2 (List.mem_cons_of_mem _ h2)
    unfold fetchSources fetchSpec
    by_cases hreg : s ∈ registeredSources
    · rw [if_pos hreg, if_pos hreg]
      cases hload : cacheProbe hash true topic s (announceSource s st) with
      | some d =>
        have hpo : pairOutcome hash oracle st.cache topic s = some d := by
          unfold pairOutcome
          rw [show loadFromCache hash st.cache topic s = some d from hload]
        rw [hpo]
        exact ih _ _ hrest
      | none =>
        have hmiss : loadFromCache hash st.cache topic s = none := hload
        cases hor : oracle topic s with
        | ok d =>
          have hpo : pairOutcome hash oracle st.cache topic s = some d := by
            unfold pairOutcome oracleDoc
            rw [hmiss, hor]
          rw [hpo, ih _ _ hrest]
          apply fetchSpec_congr
          intro s2 hs2
          rw [show (maybeSave hash true topic s d
            (recordCall topic s (announceSource s st))).cache =
              saveToCache hash st.cache topic s d from rfl]
          by_cases hp : cachePath hash topic s = cachePath hash topic s2
          · have hss : s = s2 := hpath s (by simp) s2 (by simp [hs2]) hp
            subst hss
            exact pairOutcome_save_self hash oracle st.cache topic s d
              (by unfold oracleDoc; rw [hor]) hmiss
          · exact pairOutcome_save_ne hash oracle st.cache topic s2 topic s d hp
        | absent =>
          have hpo : pairOutcome hash oracle st.cache topic s = none := by
            unfold pairOutcome oracleDoc
            rw [hmiss, hor]
          rw [hpo]
          exact ih _ _ hrest
        | exc m =>
          have hpo : pairOutcome hash oracle st.cache topic s = none := by
            unfold pairOutcome oracleDoc
            rw [hmiss, hor]
          rw [hpo]
          exact ih _ _ hrest
    · rw [if_neg hreg, if_neg hreg]
      exact ih _ _ hrest

theorem fetchSources_pairOutcome (hash : String → String) (oracle : Oracle)
    (topic : String) :
    ∀ (srcs : List String) (acc : List (String × Document)) (st : RunState)
      (t2 s2 : String),
      (∀ s ∈ srcs, cachePath hash topic s = cachePath hash t2 s2 →
        topic = t2 ∧ s = s2) →
      pairOutcome hash oracle
          (fetchSources hash oracle true topic srcs acc st).2.cache t2 s2 =
        pairOutcome hash oracle st.cache t2 s2 := by
  intro srcs
  induction srcs with
  | nil => intro acc st t2 s2 _; rfl
  | cons s rest ih =>
    intro acc st t2 s2 hcol
    have hrest : ∀ s3 ∈ rest, cachePath hash topic s3 = cachePath hash t2 s2 →
        topic = t2 ∧ s3 = s2 :=
      fun s3 h3 => hcol s3 (List.mem_cons_of_mem _ h3)
    unfold fetchSources
    by_cases hreg : s ∈ registeredSources
    · rw [if_pos hreg]
      cases hload : cacheProbe hash true topic s (announceSource s st) with
      | some d => exact ih _ _ _ _ hrest
      | none =>
        have hmiss : loadFromCache hash st.cache topic s = none := hload
        cases hor : oracle topic s with
        | ok d =>
          rw [ih _ _ _ _ hrest]
          rw [show (maybeSave hash true topic s d
            (recordCall topic s (announceSource s st))).cache =
              saveToCache hash st.cache topic s d from rfl]
          by_cases hp : cachePath hash topic s = cachePath hash t2 s2
          · obtain ⟨ht, hs⟩ := hcol s (by simp) hp
            subst ht
            subst hs
            exact pairOutcome_save_self hash oracle st.cache topic s d
              (by unfold oracleDoc; rw [hor]) hmiss
          · exact pairOutcome_save_ne hash oracle st.cache t2 s2 topic s d hp
        | absent => exact ih _ _ _ _ hrest
        | exc m => exact ih _ _ _ _ hrest
    · rw [if_neg hreg]
      exact ih _ _ _ _ hrest

theorem fetchSources_frame (hash : String → String) (oracle : Oracle) (u : Bool)
    (topic : String) :
    ∀ (srcs : List String) (acc : List (String × Document)) (st : RunState),
      (fetchSources hash oracle u topic srcs acc st).2.artifacts = st.artifacts ∧
      (fetchSources hash oracle u topic srcs acc st).2.prog.files = st.prog.files := by
  intro srcs
  induction srcs with
  | nil => intro acc st; exact ⟨rfl, rfl⟩
  | cons s rest ih =>
    intro acc st
    unfold fetchSources
    by_cases hreg : s ∈ registeredSources
    · rw [if_pos hreg]
      cases hload : cacheProbe hash u topic s (announceSource s st) with
      | some d => exact ih _ _
      | none =>
        cases hor : oracle topic s with
        | ok d =>
          obtain ⟨ha, hf⟩ := ih (dictInsert acc s d)
            (maybeSave hash u topic s d (recordCall topic s (announceSource s st)))
          constructor
          · rw [ha, maybeSave_artifacts]; rfl
          · rw [hf, maybeSave_prog]; rfl
        | absent => exact ih _ _
        | exc m => exact ih _ _
    · rw [if_neg hreg]
      exact ih _ _

/-- The artifact (path and bytes) one topic contributes under a fixed cache
state: nothing when no source yields a document, otherwise the rendered
file. -/
def specTopicArt (hash : String → String) (oracle : Oracle) (c : CacheStore)
    (include2 : List String) (outputDir now cat t : String) : Option (String × String) :=
  if fetchSpec hash oracle c t include2 [] = [] then none
  else some (savePath outputDir cat t,
    generateTextFile ⟨t, fetchSpec hash oracle c t include2 []⟩ cat now)

/-- All artifacts of a job under a fixed cache state, in traversal order. -/
def specArtifacts (hash : String → String) (oracle : Oracle) (c : CacheStore)
    (include2 : List String) (outputDir now : String)
    (cats : List (String × List String)) : List (String × String) :=
  (cats.map (fun c2 =>
    c2.2.filterMap (specTopicArt hash oracle c include2 outputDir now c2.1))).flatten

theorem specTopicArt_congr (hash : String → String) (oracle : Oracle)
    (c1 c2 : CacheStore) (include2 : List String) (outputDir now cat t : String)
    (hout : ∀ s ∈ include2, pairOutcome hash oracle c1 t s = pairOutcome hash oracle c2 t s) :
    specTopicArt hash oracle c1 include2 outputDir now cat t =
      specTopicArt hash oracle c2 include2 outputDir now cat t := by
  unfold specTopicArt
  rw [fetchSpec_congr hash oracle c1 c2 t include2 [] hout]

theorem writeArtifact_cache (cfg : JobConfig) (category : String) (td : TopicData)
    (st : RunState) : (writeArtifact cfg category td st).cache = st.cache := by
  unfold writeArtifact
  split <;> rfl

theorem scrapeTopicW_spec (cfg : JobConfig) (category topic : String) (st : RunState)
    (hpath : ∀ s1 ∈ cfg.includeSources, ∀ s2 ∈ cfg.includeSources,
      cachePath cfg.hash topic s1 = cachePath cfg.hash topic s2 → s1 = s2) :
    (scrapeTopicW cfg category topic st).artifacts = st.artifacts ++
      (specTopicArt cfg.hash cfg.oracle st.cache cfg.includeSources cfg.outputDir
        cfg.now category topic).toList ∧
    (scrapeTopicW cfg category topic st).prog.files = st.prog.files ++
      ((specTopicArt cfg.hash cfg.oracle st.cache cfg.includeSources cfg.outputDir
        cfg.now category topic).map Prod.fst).toList ∧
    ∀ t2 s2, (∀ s ∈ cfg.includeSources,
        cachePath cfg.hash topic s = cachePath cfg.hash t2 s2 → topic = t2 ∧ s = s2) →
      pairOutcome cfg.hash cfg.oracle (scrapeTopicW cfg category topic st).cache t2 s2 =
        pairOutcome cfg.hash cfg.oracle st.cache t2 s2 := by
  have htd : (fetchTopicW cfg true topic st).1 =
      ⟨topic, fetchSpec cfg.hash cfg.oracle st.cache topic cfg.includeSources []⟩ := by
    show (⟨topic, (fetchSources cfg.hash cfg.oracle true topic cfg.includeSources []
      (announceTopic topic st)).1⟩ : TopicData) = _
    rw [fetchSources_spec cfg.hash cfg.oracle topic cfg.includeSources []
      (announceTopic topic st) hpath]
    rfl
  obtain ⟨hfa, hff⟩ := fetchSources_frame cfg.hash cfg.oracle true topic
    cfg.includeSources [] (announceTopic topic st)
  refine ⟨?_, ?_, ?_⟩
  · show (writeArtifact cfg category (fetchTopicW cfg true topic st).1
      (fetchTopicW cfg true topic st).2).artifacts = _
    rw [htd]
    unfold writeArtifact specTopicArt
    by_cases hemp : fetchSpec cfg.hash cfg.oracle st.cache topic cfg.includeSources [] = []
    · rw [if_pos (by exact hemp), if_pos hemp]
      show (fetchTopicW cfg true topic st).2.artifacts = st.artifacts ++ []
      rw [List.append_nil]
      exact hfa
    · rw [if_neg (by exact hemp), if_neg hemp]
      show (fetchSources cfg.hash cfg.oracle true topic cfg.includeSources []
        (announceTopic topic st)).2.artifacts ++ _ = _
      rw [hfa]
      rfl
  · show (writeArtifact cfg category (fetchTopicW cfg true topic st).1
      (fetchTopicW cfg true topic st).2).prog.files = _
    rw [htd]
    unfold writeArtifact specTopicArt
    by_cases hemp : fetchSpec cfg.hash cfg.oracle st.cache topic cfg.includeSources [] = []
    · rw [if_pos (by exact hemp), if_pos hemp]
      show (fetchTopicW cfg true topic st).2.prog.files = st.prog.files ++ []
      rw [List.append_nil]
      exact hff
    · rw [if_neg (by exact hemp), if_neg hemp]
      show (fetchSources cfg.hash cfg.oracle true topic cfg.includeSources []
        (announceTopic topic st)).2.prog.files ++ _ = _
      rw [hff]
      rfl
  · intro t2 s2 hcol
    show pairOutcome cfg.hash cfg.oracle
      (writeArtifact cfg category (fetchTopicW cfg true topic st).1
        (fetchTopicW cfg true topic st).2).cache t2 s2 = _
    rw [writeArtifact_cache]
    exact fetchSources_pairOutcome cfg.hash cfg.oracle topic cfg.includeSources []
      (announceTopic topic st) t2 s2 hcol

theorem scrapeCategoryW_spec (cfg : JobConfig) (category : String) (c0 : CacheStore)
    (JT : String → Prop)
    (Hinj : ∀ t1 s1 t2 s2, JT t1 → s1 ∈ cfg.includeSources → JT t2 →
      s2 ∈ cfg.includeSources →
      cachePath cfg.hash t1 s1 = cachePath cfg.hash t2 s2 → t1 = t2 ∧ s1 = s2) :
    ∀ (topics : List String) (st : RunState),
      (∀ t ∈ topics, JT t) →
      (∀ t s, JT t → s ∈ cfg.includeSources →
        pairOutcome cfg.hash cfg.oracle st.cache t s =
          pairOutcome cfg.hash cfg.oracle c0 t s) →
      (scrapeCategoryW cfg category topics st).artifacts = st.artifacts ++
        topics.filterMap (specTopicArt cfg.hash cfg.oracle c0 cfg.includeSources
          cfg.outputDir cfg.now category) ∧
      (scrapeCategoryW cfg category topics st).prog.files = st.prog.files ++
        (topics.filterMap (specTopicArt cfg.hash cfg.oracle c0 cfg.includeSources
          cfg.outputDir cfg.now category)).map Prod.fst ∧
      (∀ t s, JT t → s ∈ cfg.includeSources →
        pairOutcome cfg.hash cfg.oracle (scrapeCategoryW cfg category topics st).cache t s =
          pairOutcome cfg.hash cfg.oracle c0 t s) := by
  intro topics
  induction topics with
  | nil =>
    intro st _ hout
    refine ⟨by simp [scrapeCategoryW], by simp [scrapeCategoryW], ?_⟩
    intro t s ht hs
    exact hout t s ht hs
  | cons t rest ih =>
    intro st htop hout
    have hJTt : JT t := htop t (by simp)
    have hpath : ∀ s1 ∈ cfg.includeSources, ∀ s2 ∈ cfg.includeSources,
        cachePath cfg.hash t s1 = cachePath cfg.hash t s2 → s1 = s2 :=
      fun s1 h1 s2 h2 hp => (Hinj t s1 t s2 hJTt h1 hJTt h2 hp).2
    obtain ⟨ha1, hf1, hpo1⟩ := scrapeTopicW_spec cfg category t st hpath
    have hcongr : specTopicArt cfg.hash cfg.oracle st.cache cfg.includeSources
        cfg.outputDir cfg.now category t =
        specTopicArt cfg.hash cfg.oracle c0 cfg.includeSources
          cfg.outputDir cfg.now category t :=
      specTopicArt_congr _ _ _ _ _ _ _ _ _ (fun s hs => hout t s hJTt hs)
    have hout2 : ∀ t2 s2, JT t2 → s2 ∈ cfg.includeSources →
        pairOutcome cfg.hash cfg.oracle (scrapeTopicW cfg category t st).cache t2 s2 =
          pairOutcome cfg.hash cfg.oracle c0 t2 s2 := by
      intro t2 s2 ht2 hs2
      rw [hpo1 t2 s2 (fun s hs hp => Hinj t s t2 s2 hJTt hs ht2 hs2 hp)]
      exact hout t2 s2 ht2 hs2
    obtain ⟨ha2, hf2, hpo2⟩ := ih (scrapeTopicW cfg category t st)
      (fun t2 h2 => htop t2 (List.mem_cons_of_mem _ h2)) hout2
    have hcons : scrapeCategoryW cfg category (t :: rest) st =
        scrapeCategoryW cfg category rest (scrapeTopicW cfg category t st) := rfl
    refine ⟨?_, ?_, ?_⟩
    · rw [hcons, ha2, ha1, hcongr, List.append_assoc]
      congr 1
      rw [List.filterMap_cons]
      cases specTopicArt cfg.hash cfg.oracle c0 cfg.includeSources cfg.outputDir
        cfg.now category t <;> rfl
    · rw [hcons, hf2, hf1, hcongr, List.append_assoc]
      congr 1
      rw [List.filterMap_cons]
      cases specTopicArt cfg.hash cfg.oracle c0 cfg.includeSources cfg.outputDir
        cfg.now category t <;> simp
    · intro t2 s2 ht2 hs2
      rw [hcons]
      exact hpo2 t2 s2 ht2 hs2

theorem categoriesFold_spec (cfg : JobConfig) (c0 : CacheStore) (JT : String → Prop)
    (Hinj : ∀ t1 s1 t2 s2, JT t1 → s1 ∈ cfg.includeSources → JT t2 →
      s2 ∈ cfg.includeSources →
      cachePath cfg.hash t1 s1 = cachePath cfg.hash t2 s2 → t1 = t2 ∧ s1 = s2) :
    ∀ (cats2 : List (String × List String)) (st : RunState),
      (∀ c ∈ cats2, ∀ t ∈ c.2, JT t) →
      (∀ t s, JT t → s ∈ cfg.includeSources →
        pairOutcome cfg.hash cfg.oracle st.cache t s =
          pairOutcome cfg.hash cfg.oracle c0 t s) →
      (cats2.foldl (fun st c => scrapeCategoryW cfg c.1 c.2 st) st).artifacts =
        st.artifacts ++ specArtifacts cfg.hash cfg.oracle c0 cfg.includeSources
          cfg.outputDir cfg.now cats2 ∧
      (cats2.foldl (fun st c => scrapeCategoryW cfg c.1 c.2 st) st).prog.files =
        st.prog.files ++ (specArtifacts cfg.hash cfg.oracle c0 cfg.includeSources
          cfg.outputDir cfg.now cats2).map Prod.fst ∧
      (∀ t s, JT t → s ∈ cfg.includeSources →
        pairOutcome cfg.hash cfg.oracle
            (cats2.foldl (fun st c => scrapeCategoryW cfg c.1 c.2 st) st).cache t s =
          pairOutcome cfg.hash cfg.oracle c0 t s) := by
  intro cats2
  induction cats2 with
  | nil =>
    intro st _ hout
    exact ⟨by simp [specArtifacts], by simp [specArtifacts], fun t s ht hs => hout t s ht hs⟩
  | cons c rest ih =>
    intro st hcats hout
    obtain ⟨ha1, hf1, hpo1⟩ := scrapeCategoryW_spec cfg c.1 c0 JT Hinj c.2 st
      (hcats c (by simp)) hout
    obtain ⟨ha2, hf2, hpo2⟩ := ih (scrapeCategoryW cfg c.1 c.2 st)
      (fun c2 h2 => hcats c2 (List.mem_cons_of_mem _ h2)) hpo1
    have hcons : (c :: rest).foldl (fun st c => scrapeCategoryW cfg c.1 c.2 st) st =
        rest.foldl (fun st c => scrapeCategoryW cfg c.1 c.2 st)
          (scrapeCategoryW cfg c.1 c.2 st) := rfl
    have hspec : specArtifacts cfg.hash cfg.oracle c0 cfg.includeSources
        cfg.outputDir cfg.now (c :: rest) =
        c.2.filterMap (specTopicArt cfg.hash cfg.oracle c0 cfg.includeSources
          cfg.outputDir cfg.now c.1) ++
        specArtifacts cfg.hash cfg.oracle c0 cfg.includeSources
          cfg.outputDir cfg.now rest := by
      unfold specArtifacts
      rw [List.map_cons, List.flatten_cons]
    refine ⟨?_, ?_, ?_⟩
    · rw [hcons, ha2, ha1, hspec, List.append_assoc]
    · rw [hcons, hf2, hf1, hspec, List.map_append, List.append_assoc]
    · intro t s ht hs
      rw [hcons]
      exact hpo2 t s ht hs

theorem runScrapeJob_spec (cfg : JobConfig) (jobId : String)
    (cats : List (String × List String)) (c0 : CacheStore)
    (Hinj : ∀ t1 s1 t2 s2, t1 ∈ (cats.map (fun c => c.2)).flatten →
      s1 ∈ cfg.includeSources → t2 ∈ (cats.map (fun c => c.2)).flatten →
      s2 ∈ cfg.includeSources →
      cachePath cfg.hash t1 s1 = cachePath cfg.hash t2 s2 → t1 = t2 ∧ s1 = s2) :
    (runScrapeJob cfg jobId cats c0).artifacts =
      specArtifacts cfg.hash cfg.oracle c0 cfg.includeSources cfg.outputDir cfg.now cats ∧
    (runScrapeJob cfg jobId cats c0).prog.files =
      (specArtifacts cfg.hash cfg.oracle c0 cfg.includeSources cfg.outputDir
        cfg.now cats).map Prod.fst ∧
    (∀ t s, t ∈ (cats.map (fun c => c.2)).flatten → s ∈ cfg.includeSources →
      pairOutcome cfg.hash cfg.oracle (runScrapeJob cfg jobId cats c0).cache t s =
        pairOutcome cfg.hash cfg.oracle c0 t s) := by
  have hcats : ∀ c ∈ cats, ∀ t ∈ c.2, t ∈ (cats.map (fun c => c.2)).flatten := by
    intro c hc t ht
    exact List.mem_flatten.mpr ⟨c.2, List.mem_map_of_mem _ hc, ht⟩
  obtain ⟨ha, hf, hpo⟩ := categoriesFold_spec cfg c0
    (fun t => t ∈ (cats.map (fun c => c.2)).flatten) Hinj cats
    (emit ⟨c0, ⟨jobId, (cats.map (fun c => c.2.length)).sum, 0, "", "", "starting", []⟩,
      [], [], []⟩)
    hcats (fun _ _ _ _ => rfl)
  exact ⟨ha, hf, hpo⟩

theorem filterMap_specTopicArt_congr (hash : String → String) (oracle : Oracle)
    (c1 c2 : CacheStore) (include2 : List String) (outputDir now cat : String) :
    ∀ topics : List String,
      (∀ t ∈ topics, ∀ s ∈ include2,
        pairOutcome hash oracle c1 t s = pairOutcome hash oracle c2 t s) →
      topics.filterMap (specTopicArt hash oracle c1 include2 outputDir now cat) =
        topics.filterMap (specTopicArt hash oracle c2 include2 outputDir now cat) := by
  intro topics
  induction topics with
  | nil => intro _; rfl
  | cons t rest ih =>
    intro hout
    rw [List.filterMap_cons, List.filterMap_cons,
      specTopicArt_congr hash oracle c1 c2 include2 outputDir now cat t
        (fun s hs => hout t (by simp) s hs),
      ih (fun t2 h2 s hs => hout t2 (List.mem_cons_of_mem _ h2) s hs)]

theorem specArtifacts_congr (hash : String → String) (oracle : Oracle)
    (c1 c2 : CacheStore) (include2 : List String) (outputDir now : String) :
    ∀ cats2 : List (String × List String),
      (∀ t s, t ∈ (cats2.map (fun c => c.2)).flatten → s ∈ include2 →
        pairOutcome hash oracle c1 t s = pairOutcome hash oracle c2 t s) →
      specArtifacts hash oracle c1 include2 outputDir now cats2 =
        specArtifacts hash oracle c2 include2 outputDir now cats2 := by
  intro cats2
  induction cats2 with
  | nil => intro _; rfl
  | cons c rest ih =>
    intro hout
    unfold specArtifacts
    rw [List.map_cons, List.flatten_cons, List.map_cons, List.flatten_cons]
    rw [filterMap_specTopicArt_congr hash oracle c1 c2 include2 outputDir now c.1 c.2
      (fun t ht s hs => hout t s
        (List.mem_flatten.mpr ⟨c.2, by simp, ht⟩) hs)]
    have hrest := ih (fun t s ht hs => hout t s (by
      rw [List.map_cons, List.flatten_cons]
      exact List.mem_append.mpr (Or.inr ht)) hs)
    unfold specArtifacts at hrest
    rw [hrest]

theorem specTopicArt_fst_now (hash : String → String) (oracle : Oracle)
    (c : CacheStore) (include2 : List String) (outputDir n1 n2 cat t : String) :
    (specTopicArt hash oracle c include2 outputDir n1 cat t).map Prod.fst =
      (specTopicArt hash oracle c include2 outputDir n2 cat t).map Prod.fst := by
  unfold specTopicArt
  by_cases hemp : fetchSpec hash oracle c t include2 [] = []
  · rw [if_pos hemp, if_pos hemp]
  · rw [if_neg hemp, if_neg hemp]
    rfl

theorem specArtifacts_fst_now (hash : String → String) (oracle : Oracle)
    (c : CacheStore) (include2 : List String) (outputDir n1 n2 : String) :
    ∀ cats2 : List (String × List String),
      (specArtifacts hash oracle c include2 outputDir n1 cats2).map Prod.fst =
        (specArtifacts hash oracle c include2 outputDir n2 cats2).map Prod.fst := by
  intro cats2
  induction cats2 with
  | nil => rfl
  | cons c2 rest ih =>
    unfold specArtifacts
    rw [List.map_cons, List.flatten_cons, List.map_cons, List.flatten_cons,
      List.map_append, List.map_append]
    have htop : ∀ topics : List String,
        (topics.filterMap (specTopicArt hash oracle c include2 outputDir n1 c2.1)).map
          Prod.fst =
        (topics.filterMap (specTopicArt hash oracle c include2 outputDir n2 c2.1)).map
          Prod.fst := by
      intro topics
      induction topics with
      | nil => rfl
      | cons t r2 ih2 =>
        rw [List.filterMap_cons, List.filterMap_cons]
        cases h1 : specTopicArt hash oracle c include2 outputDir n1 c2.1 t with
        | none =>
          have h2 := specTopicArt_fst_now hash oracle c include2 outputDir n1 n2 c2.1 t
          rw [h1] at h2
          cases h2x : specTopicArt hash oracle c include2 outputDir n2 c2.1 t with
          | none => exact ih2
          | some a => rw [h2x] at h2; exact Option.noConfusion h2
        | some a =>
          have h2 := specTopicArt_fst_now hash oracle c include2 outputDir n1 n2 c2.1 t
          rw [h1] at h2
          cases h2x : specTopicArt hash oracle c include2 outputDir n2 c2.1 t with
          | none => rw [h2x] at h2; exact Option.noConfusion h2
          | some b =>
            rw [h2x] at h2
            rw [List.map_cons, List.map_cons, ih2]
            have : a.1 = b.1 := Option.some.inj h2
            rw [this]
    unfold specArtifacts at ih
    rw [htop c2.2, ih]

/-- The `Generated:` header is line index 4 of the artifact; dropping it,
the rendered lines are independent of the generation clock. -/
theorem genLines_eraseIdx_timestamp (td : TopicData) (cat n1 n2 : String) :
    (genLines td cat n1).eraseIdx 4 = (genLines td cat n2).eraseIdx 4 := rfl

/-- The adapter oracle of the C2 scenario: one document for every pair. -/
def rerunOracle : Oracle :=
  fun _ _ => .ok ⟨"T", "Wikipedia", "u", [⟨some "Overview", ["hello"]⟩], "ts"⟩

/-- The job configuration of the C2 scenario at a given clock value. -/
def rerunCfg (now : String) : JobConfig :=
  ⟨fun k => k, rerunOracle, ["wikipedia"], "out", now⟩

/-- First run of the C2 scenario: empty cache, clock 2026-01-01. -/
def rerunR1 : RunState :=
  runScrapeJob (rerunCfg "2026-01-01 00:00:00") "j1" [("c", ["T"])] []

/-- Second run of the C2 scenario: same submission, first run's cache,
clock 2026-01-02. -/
def rerunR2 : RunState :=
  runScrapeJob (rerunCfg "2026-01-02 00:00:00") "j2" [("c", ["T"])] rerunR1.cache

set_option maxRecDepth 4000 in
/-- C2 counterexample.  Re-running an identical one-topic submission with
caching enabled: the second run is served entirely from the cache (zero
`get_article` calls) and produces an artifact at the same path, yet the
artifact bytes differ — the `Generated:` header embeds the wall clock — so
the runs are not byte-identical. -/
theorem rerun_not_byte_identical_counterexample :
    rerunR2.calls = [] ∧
    rerunR1.artifacts.map Prod.fst = rerunR2.artifacts.map Prod.fst ∧
    rerunR1.artifacts ≠ rerunR2.artifacts := by
  refine ⟨by decide, by decide, by decide⟩

/-- C2 (amended).  Re-running an identical job submission with caching
enabled produces artifacts at the same paths whose bytes are identical
except for the `Generated:` timestamp header line (line index 4), and the
same manifest counts — provided the job's (topic, source) pairs have
pairwise distinct cache fingerprints (md5 collides only on the `_`
ambiguity of C9).  Both runs render exactly the artifacts determined by the
initial cache and the adapter outcomes. -/
theorem rerun_cache_amended (hash : String → String) (oracle : Oracle)
    (include2 : List String) (outputDir now1 now2 jobId1 jobId2 : String)
    (cats : List (String × List String)) (c0 : CacheStore)
    (Hinj : ∀ t1 s1 t2 s2, t1 ∈ (cats.map (fun c => c.2)).flatten → s1 ∈ include2 →
      t2 ∈ (cats.map (fun c => c.2)).flatten → s2 ∈ include2 →
      cachePath hash t1 s1 = cachePath hash t2 s2 → t1 = t2 ∧ s1 = s2) :
    (runScrapeJob ⟨hash, oracle, include2, outputDir, now1⟩ jobId1 cats c0).artifacts =
      specArtifacts hash oracle c0 include2 outputDir now1 cats ∧
    (runScrapeJob ⟨hash, oracle, include2, outputDir, now2⟩ jobId2 cats
        (runScrapeJob ⟨hash, oracle, include2, outputDir, now1⟩ jobId1 cats c0).cache).artifacts =
      specArtifacts hash oracle c0 include2 outputDir now2 cats ∧
    (specArtifacts hash oracle c0 include2 outputDir now1 cats).map Prod.fst =
      (specArtifacts hash oracle c0 include2 outputDir now2 cats).map Prod.fst ∧
    runManifest cats (runScrapeJob ⟨hash, oracle, include2, outputDir, now2⟩ jobId2 cats
        (runScrapeJob ⟨hash, oracle, include2, outputDir, now1⟩ jobId1 cats c0).cache) =
      runManifest cats (runScrapeJob ⟨hash, oracle, include2, outputDir, now1⟩ jobId1 cats c0) ∧
    ∀ (td : TopicData) (cat : String),
      (genLines td cat now1).eraseIdx 4 = (genLines td cat now2).eraseIdx 4 := by
  obtain ⟨ha1, hf1, hpo1⟩ :=
    runScrapeJob_spec ⟨hash, oracle, include2, outputDir, now1⟩ jobId1 cats c0 Hinj
  obtain ⟨ha2, hf2, hpo2⟩ :=
    runScrapeJob_spec ⟨hash, oracle, include2, outputDir, now2⟩ jobId2 cats
      (runScrapeJob ⟨hash, oracle, include2, outputDir, now1⟩ jobId1 cats c0).cache Hinj
  have hc2 : specArtifacts hash oracle
      (runScrapeJob ⟨hash, oracle, include2, outputDir, now1⟩ jobId1 cats c0).cache
      include2 outputDir now2 cats =
      specArtifacts hash oracle c0 include2 outputDir now2 cats :=
    specArtifacts_congr hash oracle _ c0 include2 outputDir now2 cats
      (fun t s ht hs => hpo1 t s ht hs)
  have hfst := specArtifacts_fst_now hash oracle c0 include2 outputDir now1 now2 cats
  refine ⟨ha1, by rw [ha2, hc2], hfst, ?_, fun td cat => genLines_eraseIdx_timestamp td cat now1 now2⟩
  unfold runManifest
  rw [hf1, hf2, hc2, hfst]

/-- Witness for C2: the amended theorem applied to the concrete one-topic
scenario. -/
theorem rerun_cache_amended_witness :
    rerunR1.artifacts = specArtifacts (fun k => k) rerunOracle [] ["wikipedia"]
      "out" "2026-01-01 00:00:00" [("c", ["T"])] ∧
    runManifest [("c", ["T"])] rerunR2 = runManifest [("c", ["T"])] rerunR1 :=
  ⟨(rerun_cache_amended (fun k => k) rerunOracle ["wikipedia"] "out"
      "2026-01-01 00:00:00" "2026-01-02 00:00:00" "j1" "j2" [("c", ["T"])] []
      (by
        intro t1 s1 t2 s2 h1 h2 h3 h4 _
        simp at h1 h2 h3 h4
        subst h1; subst h2; subst h3; subst h4
        exact ⟨rfl, rfl⟩)).1,
   (rerun_cache_amended (fun k => k) rerunOracle ["wikipedia"] "out"
      "2026-01-01 00:00:00" "2026-01-02 00:00:00" "j1" "j2" [("c", ["T"])] []
      (by
        intro t1 s1 t2 s2 h1 h2 h3 h4 _
        simp at h1 h2 h3 h4
        subst h1; subst h2; subst h3; subst h4
        exact ⟨rfl, rfl⟩)).2.2.2.1⟩

/-- One entry of the process-wide `jobs` table (src/app.py line 423). -/
structure JobEntry where
  status : String
  outputDir : String
deriving DecidableEq

/-- The process-wide registry: the `jobs` table and the set of job ids
owning an entry in `job_queues` (src/app.py lines 224–225). -/
structure ServerState where
  jobs : List (String × JobEntry)
  queues : List String
deriving DecidableEq

/-- `job_id in jobs` / `jobs[job_id]`: dict lookup. -/
def lookupJob : List (String × JobEntry) → String → Option JobEntry
  | [], _ => none
  | (k, v) :: r, q => if k = q then some v else lookupJob r q

/-- `del jobs[job_id]`: remove the key from the dict. -/
def delKey : List (String × JobEntry) → String → List (String × JobEntry)
  | [], _ => []
  | (k, v) :: r, q => if k = q then delKey r q else (k, v) :: delKey r q

/-- `del job_queues[job_id]`: remove the id from the queue table. -/
def delId : List String → String → List String
  | [], _ => []
  | k :: r, q => if k = q then delId r q else k :: delId r q

/-- The response of the submission endpoint. -/
inductive SubmitResult
  | ok (jobId : String)
  | err (code : Nat) (msg : String)
deriving DecidableEq

/-- `start_scrape` (src/app.py lines 404–433): an empty categories mapping
is rejected with a 400 error before any job id, queue, registry entry or
worker thread is created; otherwise the fresh id (the uuid4 prefix,
modelled as the `freshId` parameter) is registered in both tables with a
running job entry and returned. -/
def startScrape (freshId : String) (categories : List (String × List String))
    (st : ServerState) : SubmitResult × ServerState :=
  if categories.isEmpty then (.err 400 "No categories selected", st)
  else (.ok freshId,
    { jobs := (freshId, ⟨"running", "output_" ++ freshId⟩) :: st.jobs,
      queues := freshId :: st.queues })

/-- `cleanup_job` (src/app.py lines 583–595): when the id is registered,
delete its output directory (a filesystem effect outside the registry
model), its queue entry and its registry entry; in every case answer with
the success payload `status: cleaned`. -/
def cleanupJob (jobId : String) (st : ServerState) : String × ServerState :=
  match lookupJob st.jobs jobId with
  | some _ => ("cleaned", ⟨delKey st.jobs jobId, delId st.queues jobId⟩)
  | none => ("cleaned", st)

theorem lookupJob_delKey (q : String) : ∀ l, lookupJob (delKey l q) q = none := by
  intro l
  induction l with
  | nil => rfl
  | cons kv r ih =>
    cases kv with
    | mk k v =>
      unfold delKey
      by_cases h : k = q
      · rw [if_pos h]
        exact ih
      · rw [if_neg h]
        unfold lookupJob
        rw [if_neg h]
        exact ih

theorem not_mem_delId (q : String) : ∀ l, q ∉ delId l q := by
  intro l
  induction l with
  | nil => simp [delId]
  | cons k r ih =>
    unfold delId
    by_cases h : k = q
    · rw [if_pos h]
      exact ih
    · rw [if_neg h]
      intro hmem
      rcases List.mem_cons.mp hmem with hmem | hmem
      · exact h hmem.symm
      · exact ih hmem

/-- C4.  A submission whose categories mapping is empty is rejected with an
error response before any job is created: no job id is issued and both
registry tables are left untouched. -/
theorem empty_submission_rejected (freshId : String) (st : ServerState)
    (categories : List (String × List String)) (h : categories = []) :
    startScrape freshId categories st = (.err 400 "No categories selected", st) := by
  subst h
  rfl

/-- Witness for C4: a concrete empty submission against a non-empty
registry. -/
theorem empty_submission_rejected_witness :
    startScrape "abc12345" [] ⟨[("old", ⟨"complete", "output_old"⟩)], ["old"]⟩ =
      (.err 400 "No categories selected",
        ⟨[("old", ⟨"complete", "output_old"⟩)], ["old"]⟩) :=
  empty_submission_rejected "abc12345" ⟨[("old", ⟨"complete", "output_old"⟩)], ["old"]⟩ [] rfl

/-- C10.  The cleanup endpoint always answers with the success payload,
even for an unknown job id (whose tables it leaves untouched, signalling
nothing); for a registered id it removes both the registry entry and the
queue entry. -/
theorem cleanup_always_succeeds (jobId : String) (st : ServerState) :
    (cleanupJob jobId st).1 = "cleaned" ∧
    (lookupJob st.jobs jobId = none → (cleanupJob jobId st).2 = st) ∧
    (lookupJob st.jobs jobId ≠ none →
      lookupJob (cleanupJob jobId st).2.jobs jobId = none ∧
      jobId ∉ (cleanupJob jobId st).2.queues) := by
  unfold cleanupJob
  cases hl : lookupJob st.jobs jobId with
  | none =>
    refine ⟨rfl, fun _ => rfl, fun hne => absurd rfl hne⟩
  | some v =>
    refine ⟨rfl, fun hn => absurd hn (by simp), fun _ => ⟨?_, ?_⟩⟩
    · exact lookupJob_delKey jobId st.jobs
    · exact not_mem_delId jobId st.queues

/-- Witness for C10: the theorem applied to a state containing the id and
to a state not containing it. -/
theorem cleanup_always_succeeds_witness :
    (cleanupJob "a" ⟨[("a", ⟨"complete", "output_a"⟩)], ["a"]⟩).1 = "cleaned" ∧
    (cleanupJob "b" ⟨[("a", ⟨"complete", "output_a"⟩)], ["a"]⟩).2 =
      ⟨[("a", ⟨"complete", "output_a"⟩)], ["a"]⟩ ∧
    lookupJob (cleanupJob "a" ⟨[("a", ⟨"complete", "output_a"⟩)], ["a"]⟩).2.jobs "a" = none ∧
    "a" ∉ (cleanupJob "a" ⟨[("a", ⟨"complete", "output_a"⟩)], ["a"]⟩).2.queues :=
  ⟨(cleanup_always_succeeds "a" ⟨[("a", ⟨"complete", "output_a"⟩)], ["a"]⟩).1,
   (cleanup_always_succeeds "b" ⟨[("a", ⟨"complete", "output_a"⟩)], ["a"]⟩).2.1 (by decide),
   ((cleanup_always_succeeds "a" ⟨[("a", ⟨"complete", "output_a"⟩)], ["a"]⟩).2.2 (by decide)).1,
   ((cleanup_always_succeeds "a" ⟨[("a", ⟨"complete", "output_a"⟩)], ["a"]⟩).2.2 (by decide)).2⟩

end Wikipedizer
